import Mathlib

/-!
# Verification of the `hop` directory-synchronization engine

A shallow embedding, in Lean 4, of the concurrent checksum-aware
directory-synchronization engine of the `hop` CLI (the streaming variant:
`buildLocalFileMap`, `remoteFileStreamer`, `skipChecker`, `uploader`,
`uploadDirectoryOptimized`, together with the pure helpers
`shouldSkipUpload`, `listRemoteFiles`, `uploadFileToStorage`).

Modelling conventions:
* Go strings are Lean `String`s; the Go standard-library string and path
  helpers used by the engine (`strings.TrimPrefix`, `strings.ReplaceAll`,
  `filepath.Clean`, `filepath.Join` with `/` as separator) are embedded as
  executable Lean functions (`goTrimPre`, `goBackslashToSlash`, `goClean`,
  `goJoin`).
* The local filesystem and the remote storage tree are explicit tree
  values; `filepath.Walk` and the recursive remote listing become
  structural recursion over those trees.
* Network calls are parameterised by oracles: an HTTP response value for a
  single call, a per-path failure predicate for the recursive remote
  listing, and a per-file upload outcome for the transport stage.
* Goroutines and channels: every channel in the engine is a
  producer/consumer queue; the value-level model composes the stages as
  functions on lists, which captures the multiset of records flowing
  through the pipeline (the spec declares the report an unordered bag).
  The scheduling/handshake claim is treated by a dedicated small
  operational model of the pipeline further below.
-/

/-! ## Go string and path helpers (Unix semantics, as used by the engine) -/

/-- Split a character list on `/`, keeping empty segments
(`strings.Split`-style; helper for `goClean`). -/
def goSplitSlash : List Char → List (List Char)
  | [] => [[]]
  | c :: rest =>
    let r := goSplitSlash rest
    if c = '/' then [] :: r
    else
      match r with
      | [] => [[c]]
      | s :: ss => (c :: s) :: ss

/-- The element-processing loop of Go `path/filepath.Clean`: `..` pops the
last kept segment, except that a leading `..` is kept in a relative path
and dropped in a rooted one.  `acc` is the kept segments in reverse. -/
def goCleanSegs (rooted : Bool) : List (List Char) → List (List Char) → List (List Char)
  | acc, [] => acc.reverse
  | acc, seg :: rest =>
    if seg = ['.', '.'] then
      match acc with
      | top :: accRest =>
        if top = ['.', '.'] then goCleanSegs rooted (seg :: acc) rest
        else goCleanSegs rooted accRest rest
      | [] => if rooted then goCleanSegs rooted [] rest else goCleanSegs rooted [seg] rest
    else goCleanSegs rooted (seg :: acc) rest

/-- Go `path/filepath.Clean` for `/`-separated paths: shortest lexical
equivalent (drops empty and `.` segments, resolves `..`, keeps
rootedness, returns `.` for an empty result).  Rootedness is
`path[0] == '/'`, read off the character list. -/
def goClean (s : String) : String :=
  if s = "" then "." else
  let rooted : Bool := match s.toList with | c :: _ => c == '/' | [] => false
  let comps := (goSplitSlash s.toList).filter (fun seg => seg ≠ [] ∧ seg ≠ ['.'])
  let cleaned := goCleanSegs rooted [] comps
  let body := String.mk (List.intercalate ['/'] cleaned)
  if rooted then "/" ++ body
  else if body = "" then "." else body

/-- Go `path/filepath.Join` restricted to two elements, as the engine uses
it: empty elements are skipped and the result is `Clean`ed. -/
def goJoin (a b : String) : String :=
  if a = "" then (if b = "" then "" else goClean b)
  else goClean (a ++ "/" ++ b)

/-- Go `strings.TrimPrefix s pre`: drop `pre` from the front of `s` when it
is a prefix, otherwise return `s` unchanged. -/
def goTrimPre (s pre : String) : String :=
  if pre.toList.isPrefixOf s.toList then String.mk (s.toList.drop pre.toList.length) else s

/-- `strings.ReplaceAll s "\x5c" "/"` as the engine always calls it: the
pattern is the single backslash character, so the replacement is a
character-by-character map. -/
def goBackslashToSlash (s : String) : String :=
  String.mk (s.toList.map (fun c => if c = '\x5c' then '/' else c))

/-! ## Data model (from the source structs) -/

/-- `StorageZone`: the remote storage-zone handle (name and access key). -/
structure StorageZone where
  name : String
  password : String
  deriving DecidableEq, Repr

/-- `FileUploadStatus`: one outcome record of the report.  The Go `error`
field becomes `Option String` (the rendered error message, `none` = nil). -/
structure FileUploadStatus where
  path : String
  success : Bool
  error : Option String
  skipped : Bool
  reason : String
  deriving DecidableEq, Repr

/-- `RemoteFileInfo`: one parsed entry of a remote listing response.  The
`BunnyTime` timestamp is kept as its rendered string (no claim uses it). -/
structure RemoteFileInfo where
  name : String
  isDirectory : Bool
  size : Int
  lastModified : String
  checksum : String
  path : String
  deriving DecidableEq, Repr

/-- `LocalFileInfo`: one local file discovered by the walk. -/
structure LocalFileInfo where
  path : String
  size : Int
  checksum : String
  relPath : String
  deriving DecidableEq, Repr

/-! ## Skip Decision Engine (`shouldSkipUpload`) -/

/-- `shouldSkipUpload`, translated clause by clause from the source
(including the final dead `return false, ""` after the size-equality
re-check). -/
def shouldSkipUpload (localFile : LocalFileInfo) (remoteFile : RemoteFileInfo) :
    Bool × String :=
  -- Compare size first (quick check)
  if localFile.size ≠ remoteFile.size then (false, "")
  -- If checksums are available, compare them
  else if remoteFile.checksum ≠ "" ∧ localFile.checksum ≠ "" then
    if localFile.checksum = remoteFile.checksum then (true, "checksum match")
    else (false, "")
  -- Fallback to size comparison only
  else if localFile.size = remoteFile.size then (true, "size match (no checksum)")
  else (false, "")

/-- The three-step reference policy, written from the specification text of
§4.4 (for the refinement comparison with `shouldSkipUpload`). -/
def skipPolicySpec (localFile : LocalFileInfo) (remoteFile : RemoteFileInfo) :
    Bool × String :=
  if localFile.size ≠ remoteFile.size then (false, "")
  else if remoteFile.checksum ≠ "" ∧ localFile.checksum ≠ "" then
    (if localFile.checksum = remoteFile.checksum then (true, "checksum match") else (false, ""))
  else (true, "size match (no checksum)")

/-- C2: `shouldSkipUpload` implements exactly the three-step reference
policy: size mismatch → `(false, "")` regardless of checksums; sizes equal
and both checksums non-empty → `(true, "checksum match")` iff they are
equal, else `(false, "")`; sizes equal and some checksum empty →
`(true, "size match (no checksum)")`. -/
theorem shouldSkipUpload_eq_skipPolicySpec
    (localFile : LocalFileInfo) (remoteFile : RemoteFileInfo) :
    shouldSkipUpload localFile remoteFile = skipPolicySpec localFile remoteFile := by
  unfold shouldSkipUpload skipPolicySpec
  split_ifs <;> simp_all

/-! ## HTTP-call models -/

/-- Outcome of one HTTP round trip, as seen by the caller: either a
transport-level error (Go `client.Do` returned a non-nil error) or a
response with a numeric status code, a rendered status line
(`resp.Status`) and a body. -/
inductive FetchResult where
  | transportError (msg : String)
  | response (status : Nat) (statusText : String) (body : String)
  deriving DecidableEq, Repr

/-- `listRemoteFiles`, with the single HTTP round trip and the JSON decoder
as oracles (`fetch`, `parseJson`).  Translated from the source: transport
error → error; 404 → empty list, no error; non-200 → error carrying the
body; 200 → parse the body and set `Path` on every non-directory entry. -/
def listRemoteFiles (parseJson : String → Except String (List RemoteFileInfo))
    (fetch : FetchResult) (remotePath : String) : Except String (List RemoteFileInfo) :=
  match fetch with
  | FetchResult.transportError msg => Except.error ("error listing files: " ++ msg)
  | FetchResult.response status statusText body =>
    if status = 404 then
      -- Directory doesn't exist, return empty list
      Except.ok []
    else if status ≠ 200 then
      Except.error ("list files failed with status " ++ statusText ++ ": " ++ body)
    else
      match parseJson body with
      | Except.error e => Except.error ("error parsing JSON response: " ++ e)
      | Except.ok remoteFiles =>
        Except.ok (remoteFiles.map (fun f =>
          if !f.isDirectory then
            { f with path := goBackslashToSlash (goJoin remotePath f.name) }
          else f))

/-- C7: a 404 ("path not found") listing response yields an empty entry
list and no error, whatever the body and whatever the decoder would do. -/
theorem listRemoteFiles_notFound
    (parseJson : String → Except String (List RemoteFileInfo))
    (statusText body remotePath : String) :
    listRemoteFiles parseJson (FetchResult.response 404 statusText body) remotePath
      = Except.ok [] := by
  rfl

/-- Witness for C7 at concrete inputs. -/
theorem listRemoteFiles_notFound_witness :
    listRemoteFiles (fun _ => Except.error "decoder unused")
      (FetchResult.response 404 "404 Not Found" "missing") "site/css"
      = Except.ok [] :=
  listRemoteFiles_notFound (fun _ => Except.error "decoder unused")
    "404 Not Found" "missing" "site/css"

/-- `uploadFileToStorage`, with the file read (`os.ReadFile`) and the HTTP
round trip as oracles.  Translated from the source: read failure → error;
transport error → error; any status other than 201 (created) and 200 (ok)
→ error carrying the status line and the response body; otherwise nil. -/
def uploadFileToStorage (readFileRes : Except String String)
    (fetch : FetchResult) (localPath : String) : Except String Unit :=
  match readFileRes with
  | Except.error e => Except.error ("error reading file " ++ localPath ++ ": " ++ e)
  | Except.ok _ =>
    match fetch with
    | FetchResult.transportError msg => Except.error ("error uploading file: " ++ msg)
    | FetchResult.response status statusText body =>
      if status ≠ 201 ∧ status ≠ 200 then
        Except.error ("upload failed with status " ++ statusText ++ ": " ++ body)
      else Except.ok ()

/-- C9: `uploadFileToStorage` succeeds iff the file was readable and the
store answered 201 (created) or 200 (ok); a transport error or any other
status is a failure, and for a non-201/200 response the diagnostic message
carries the response body (as a suffix). -/
theorem uploadFileToStorage_success_iff (readFileRes : Except String String)
    (fetch : FetchResult) (localPath : String) :
    ((uploadFileToStorage readFileRes fetch localPath = Except.ok ()) ↔
      ((∃ content, readFileRes = Except.ok content) ∧
        ∃ statusText body, (fetch = FetchResult.response 201 statusText body ∨
          fetch = FetchResult.response 200 statusText body))) ∧
    (∀ status statusText body, (status ≠ 201 ∧ status ≠ 200) →
      (∃ content, readFileRes = Except.ok content) →
      fetch = FetchResult.response status statusText body →
      uploadFileToStorage readFileRes fetch localPath =
        Except.error ("upload failed with status " ++ statusText ++ ": " ++ body)) := by
  constructor
  · cases readFileRes with
    | error e => simp [uploadFileToStorage]
    | ok content =>
      cases fetch with
      | transportError msg => simp [uploadFileToStorage]
      | response status statusText body =>
        by_cases h201 : status = 201 <;> by_cases h200 : status = 200 <;>
          simp_all [uploadFileToStorage]
  · rintro status statusText body hbad ⟨content, hread⟩ hfetch
    subst hread; subst hfetch
    simp [uploadFileToStorage, hbad]

/-! ## Remote storage tree and the streaming enumerator -/

/-- One node of the remote storage tree: the value the recursive listing
walks over.  A `file` carries the size and checksum the listing response
reports for it. -/
inductive RemoteNode where
  | file (name : String) (size : Int) (checksum : String)
  | dir (name : String) (children : List RemoteNode)

mutual

/-- The body of `remoteFileStreamer.streamFiles`, translated from the
source and split, for structural recursion, into the contribution of one
listed entry (`streamFilesNode`) and the loop over a whole listing
(`streamFiles`).  `failsAt` is the listing oracle: `failsAt p = true`
models `listRemoteFiles` returning an error for directory `p`, upon which
`streamFiles` logs a warning and returns nil, i.e. that subtree
contributes nothing and enumeration continues with its siblings. -/
def streamFilesNode (failsAt : String → Bool) (remoteDir : String) :
    String → RemoteNode → List RemoteFileInfo
  | currentPath, RemoteNode.dir name children =>
    -- Recursively stream subdirectories
    let subPath := goBackslashToSlash (goJoin currentPath name)
    if failsAt subPath then [] else streamFiles failsAt remoteDir subPath children
  | currentPath, RemoteNode.file name size checksum =>
    -- Stream the file
    let relPath :=
      if currentPath ≠ "" ∧ currentPath ≠ "/" then
        goBackslashToSlash (goJoin (goTrimPre currentPath remoteDir) name)
      else name
    [{ name := name, isDirectory := false, size := size, lastModified := "",
       checksum := checksum, path := relPath }]

/-- The `for _, file := range files` loop of `streamFiles`: `currentPath`
is the directory being listed, the node list its listing; the returned
list is the sequence of entries sent on the `remoteFiles` channel. -/
def streamFiles (failsAt : String → Bool) (remoteDir : String) :
    String → List RemoteNode → List RemoteFileInfo
  | _, [] => []
  | currentPath, node :: rest =>
    streamFilesNode failsAt remoteDir currentPath node ++
      streamFiles failsAt remoteDir currentPath rest

end

/-- `remoteFileStreamer`: stream the whole remote tree rooted at
`remoteDir` (whose listing is `tree`), starting with `streamFiles
remoteDir`; a listing failure at the root itself yields the empty
stream. -/
def remoteFileStreamer (failsAt : String → Bool) (remoteDir : String)
    (tree : List RemoteNode) : List RemoteFileInfo :=
  if failsAt remoteDir then [] else streamFiles failsAt remoteDir remoteDir tree

mutual

/-- Remove a remote node when its listing fails; keep it (with its
subtree pruned) otherwise.  Specification-side helper for the
error-localisation theorem. -/
def pruneFailingNode (failsAt : String → Bool) : String → RemoteNode → List RemoteNode
  | currentPath, RemoteNode.dir name children =>
    let subPath := goBackslashToSlash (goJoin currentPath name)
    if failsAt subPath then []
    else [RemoteNode.dir name (pruneFailing failsAt subPath children)]
  | _, RemoteNode.file name size checksum => [RemoteNode.file name size checksum]

/-- Remove from a remote tree exactly the subtrees whose listing fails. -/
def pruneFailing (failsAt : String → Bool) : String → List RemoteNode → List RemoteNode
  | _, [] => []
  | currentPath, node :: rest =>
    pruneFailingNode failsAt currentPath node ++ pruneFailing failsAt currentPath rest

end

/-- `streamFiles` distributes over concatenated listings. -/
theorem streamFiles_append (failsAt : String → Bool) (remoteDir currentPath : String)
    (a b : List RemoteNode) :
    streamFiles failsAt remoteDir currentPath (a ++ b) =
      streamFiles failsAt remoteDir currentPath a ++
        streamFiles failsAt remoteDir currentPath b := by
  induction a with
  | nil => simp [streamFiles]
  | cons x rest ih => simp [streamFiles, ih]

/-- Error localisation of the streaming enumerator: streaming with failing
subtree listings produces exactly the stream of the failure-free
enumeration of the tree with the failing subtrees removed (helper shared
by the C6 theorem). -/
theorem streamFiles_prune (failsAt : String → Bool) (remoteDir : String) :
    (∀ (currentPath : String) (node : RemoteNode),
      streamFilesNode failsAt remoteDir currentPath node =
        streamFiles (fun _ => false) remoteDir currentPath
          (pruneFailingNode failsAt currentPath node)) ∧
    (∀ (currentPath : String) (nodes : List RemoteNode),
      streamFiles failsAt remoteDir currentPath nodes =
        streamFiles (fun _ => false) remoteDir currentPath
          (pruneFailing failsAt currentPath nodes)) := by
  apply streamFilesNode.mutual_induct failsAt remoteDir
  · intro currentPath name children subPath hf
    simp only [streamFilesNode, pruneFailingNode]
    simp [streamFiles, hf]
  · intro currentPath name children subPath hf ih
    simp only [streamFilesNode, pruneFailingNode]
    simp [streamFiles, streamFilesNode, hf, ih]
  · intro currentPath name size checksum
    simp [streamFilesNode, pruneFailingNode, streamFiles]
  · intro cp
    simp [streamFiles, pruneFailing]
  · intro cp node rest ih1 ih2
    simp only [streamFiles, pruneFailing, streamFiles_append]
    rw [ih1, ih2]

/-! ## Local directory tree and `buildLocalFileMap` -/

/-- One node of the local directory tree.  `errNode` models a child entry
for which the `filepath.Walk` callback is invoked with a non-nil error
(lstat/readdir failure on that entry).  A file's `checksumRes` is the
outcome of `calculateFileChecksum`: `some c` is the uppercase-hex digest,
`none` a read failure. -/
inductive LocalNode where
  | file (name : String) (size : Int) (checksumRes : Option String)
  | dir (name : String) (children : List LocalNode)
  | errNode (name : String) (msg : String)

/-- Go map assignment `m[k] = v` on an association-list model: replace the
binding when the key is present, append it otherwise. -/
def goMapSet {α : Type} (m : List (String × α)) (k : String) (v : α) :
    List (String × α) :=
  if (m.lookup k).isSome then m.map (fun p => if p.1 = k then (k, v) else p)
  else m ++ [(k, v)]

/-- The relative path `filepath.Rel localDir path` yields for a path
produced by walking under `localDir`: the walk's component names joined
with `/` (`relDir` is the relative path of the enclosing directory, `""`
at the root).  `Rel`'s error return is modelled by the `relErr` oracle of
the walk. -/
def relJoin (relDir name : String) : String :=
  if relDir = "" then name else relDir ++ "/" ++ name

mutual

/-- The `filepath.Walk` callback of `buildLocalFileMap` on one directory
entry, translated from the source: a callback error (`errNode`) is
returned and aborts the walk; a directory is descended into; for a file,
a `filepath.Rel` failure (`relErr` oracle, keyed by the file's absolute
path) aborts the walk, a checksum failure degrades to the empty checksum,
and the file is stored in the map under its slash-normalised relative
path. -/
def walkLocalNode (relErr : String → Option String) (localDir : String) :
    String → String → LocalNode → List (String × LocalFileInfo) →
      Except String (List (String × LocalFileInfo))
  | _, _, LocalNode.errNode _ msg, _ =>
    -- the callback receives err ≠ nil and returns it: the walk aborts
    Except.error msg
  | dirPath, relDir, LocalNode.dir name children, m =>
    walkLocal relErr localDir (goJoin dirPath name) (relJoin relDir name) children m
  | dirPath, relDir, LocalNode.file name size checksumRes, m =>
    let path := goJoin dirPath name
    match relErr path with
    | some e => Except.error e
    | none =>
      let relPath := relJoin relDir name
      -- checksum failure: warn and degrade to the empty checksum
      let checksum := checksumRes.getD ""
      let key := goBackslashToSlash relPath
      Except.ok (goMapSet m key
        { path := path, size := size, checksum := checksum, relPath := key })

/-- The `filepath.Walk` loop over one directory listing: entries are
processed in order, the first callback error aborts the walk.  Arguments:
absolute path and relative path of the directory being listed, its
entries, the map built so far. -/
def walkLocal (relErr : String → Option String) (localDir : String) :
    String → String → List LocalNode → List (String × LocalFileInfo) →
      Except String (List (String × LocalFileInfo))
  | _, _, [], m => Except.ok m
  | dirPath, relDir, node :: rest, m =>
    match walkLocalNode relErr localDir dirPath relDir node m with
    | Except.error e => Except.error e
    | Except.ok m2 => walkLocal relErr localDir dirPath relDir rest m2

end

/-- `buildLocalFileMap`: walk `localDir` (whose listing is `tree`) and
build the relative-path → `LocalFileInfo` map; the callback on the root
directory itself returns nil (it is a directory). -/
def buildLocalFileMap (relErr : String → Option String) (localDir : String)
    (tree : List LocalNode) : Except String (List (String × LocalFileInfo)) :=
  walkLocal relErr localDir localDir "" tree []

/-! ## Skip checker, uploader, orchestrator -/

/-- `FileUploadTask`: a file ready for upload. -/
structure FileUploadTask where
  localFile : LocalFileInfo
  remotePath : String
  deriving DecidableEq, Repr

/-- `LocalFileState`: per-local-file classification state. -/
structure LocalFileState where
  file : LocalFileInfo
  checked : Bool
  skip : Bool
  reason : String
  deriving DecidableEq, Repr

/-- In-place update of the pointed-to state `localStates[k]` (the Go map
holds `*LocalFileState`). -/
def stSet (m : List (String × LocalFileState)) (k : String) (v : LocalFileState) :
    List (String × LocalFileState) :=
  m.map (fun p => if p.1 = k then (k, v) else p)

/-- The running state of `skipChecker`: the local-state map plus everything
sent so far on the `results` and `uploadTasks` channels. -/
structure SkipAcc where
  states : List (String × LocalFileState)
  results : List FileUploadStatus
  tasks : List FileUploadTask
  deriving DecidableEq, Repr

/-- One iteration of `skipChecker`'s `for remoteFile := range remoteFiles`
loop, translated from the source: no local counterpart → ignore; otherwise
mark checked, then either emit a skipped outcome (and record skip/reason)
or emit an upload task. -/
def skipCheckerStep (remoteDir : String) (acc : SkipAcc)
    (remoteFile : RemoteFileInfo) : SkipAcc :=
  match acc.states.lookup remoteFile.path with
  | none =>
    -- Remote file doesn't exist locally - ignore it
    acc
  | some localState =>
    -- Mark as checked
    let checkedState := { localState with checked := true }
    let skipReason := shouldSkipUpload localState.file remoteFile
    if skipReason.1 then
      { acc with
        states := stSet acc.states remoteFile.path
          { checkedState with skip := true, reason := skipReason.2 },
        results := acc.results ++
          [{ path := localState.file.path, success := true, error := none,
             skipped := true, reason := skipReason.2 }] }
    else
      -- Need to upload this file
      let remotePath := goBackslashToSlash (goJoin remoteDir localState.file.relPath)
      { acc with
        states := stSet acc.states remoteFile.path checkedState,
        tasks := acc.tasks ++ [{ localFile := localState.file, remotePath := remotePath }] }

/-- The remote-consuming loop of `skipChecker`. -/
def skipCheckerLoop (remoteDir : String) :
    SkipAcc → List RemoteFileInfo → SkipAcc
  | acc, [] => acc
  | acc, r :: rs => skipCheckerLoop remoteDir (skipCheckerStep remoteDir acc r) rs

/-- `skipChecker`'s residual sweep: every local file never checked (and not
marked skip) is new and queued for upload. -/
def residualSweep (remoteDir : String) (states : List (String × LocalFileState)) :
    List FileUploadTask :=
  states.filterMap (fun p =>
    if ¬p.2.checked ∧ ¬p.2.skip then
      some { localFile := p.2.file,
             remotePath := goBackslashToSlash (goJoin remoteDir p.2.file.relPath) }
    else none)

/-- `skipChecker`: consume the streamed remote files, then sweep the
unchecked local files; returns the skipped-outcome records and the upload
tasks it sent, in order. -/
def skipChecker (localStates : List (String × LocalFileState))
    (remoteStream : List RemoteFileInfo) (remoteDir : String) :
    List FileUploadStatus × List FileUploadTask :=
  let acc := skipCheckerLoop remoteDir ⟨localStates, [], []⟩ remoteStream
  (acc.results, acc.tasks ++ residualSweep remoteDir acc.states)

/-- The per-run network environment of the upload stage: the outcome of
`os.ReadFile` for each local path and the PUT response for each storage
URL. -/
structure NetEnv where
  readFileRes : String → Except String String
  putResp : String → FetchResult

/-- The storage URL `uploadFileToStorage` PUTs to. -/
def uploadUrl (zone : StorageZone) (remotePath : String) : String :=
  "https://storage.bunnycdn.com/" ++ zone.name ++ "/" ++ goTrimPre remotePath "/"

/-- The upload workers: each task is consumed exactly once by some worker,
which runs `uploadFileToStorage` and sends exactly one outcome record.
The model lists the records task-by-task (worker interleaving only
permutes them; the report is a bag). -/
def uploader (env : NetEnv) (zone : StorageZone) (tasks : List FileUploadTask) :
    List FileUploadStatus :=
  tasks.map (fun task =>
    let res := uploadFileToStorage (env.readFileRes task.localFile.path)
      (env.putResp (uploadUrl zone task.remotePath)) task.localFile.path
    { path := task.localFile.path,
      success := match res with | Except.ok _ => true | Except.error _ => false,
      error := match res with | Except.ok _ => none | Except.error e => some e,
      skipped := false, reason := "" })

/-- `uploadDirectoryOptimized`, the synchronization orchestrator: build the
local inventory (a failure yields the single root failure record), stream
the remote tree into the skip checker, upload the produced tasks, and
collect all outcome records.  The collected report is modelled as the
skip-classification records followed by the upload records (the collector
interleaves them nondeterministically; all claims treat the report as an
unordered bag). -/
def uploadDirectoryOptimized (relErr : String → Option String)
    (failsAt : String → Bool) (env : NetEnv) (zone : StorageZone)
    (localDir remoteDir : String) (localTree : List LocalNode)
    (remoteTree : List RemoteNode) : List FileUploadStatus :=
  match buildLocalFileMap relErr localDir localTree with
  | Except.error e =>
    [{ path := localDir, success := false,
       error := some ("failed to build local file list: " ++ e),
       skipped := false, reason := "" }]
  | Except.ok localFileMap =>
    let localStates := localFileMap.map (fun p =>
      (p.1, { file := p.2, checked := false, skip := false, reason := "" : LocalFileState }))
    let stream := remoteFileStreamer failsAt remoteDir remoteTree
    let checked := skipChecker localStates stream remoteDir
    checked.1 ++ uploader env zone checked.2

/-! ## Bookkeeping lemmas for the skip checker -/

/-- Membership from a successful association-list lookup. -/
theorem mem_of_lookup_eq {α : Type} (m : List (String × α)) (k : String) (v : α)
    (h : m.lookup k = some v) : (k, v) ∈ m := by
  induction m with
  | nil => simp [List.lookup] at h
  | cons a rest ih =>
    rw [List.lookup_cons] at h
    by_cases hk : k = a.1
    · subst hk
      simp at h
      subst h
      exact List.mem_cons_self _ _
    · have hne : (k == a.1) = false := beq_false_of_ne hk
      rw [hne] at h
      exact List.mem_cons_of_mem _ (ih h)

/-- `stSet` does not change the key column. -/
theorem stSet_map_fst (m : List (String × LocalFileState)) (k : String)
    (v : LocalFileState) : (stSet m k v).map Prod.fst = m.map Prod.fst := by
  induction m with
  | nil => rfl
  | cons a rest ih =>
    by_cases h : a.1 = k <;> simp [stSet, h] at ih ⊢ <;> simpa [stSet] using ih

/-- `stSet` leaves the bindings of other keys alone. -/
theorem lookup_stSet_ne (m : List (String × LocalFileState)) (k k2 : String)
    (v : LocalFileState) (h : k2 ≠ k) :
    (stSet m k v).lookup k2 = m.lookup k2 := by
  induction m with
  | nil => rfl
  | cons a rest ih =>
    simp only [stSet, List.map_cons] at ih ⊢
    by_cases ha : a.1 = k
    · rw [if_pos ha, List.lookup_cons, List.lookup_cons]
      have h1 : (k2 == k) = false := beq_false_of_ne h
      have h2 : (k2 == a.1) = false := by rw [ha]; exact h1
      rw [h1, h2]
      exact ih
    · rw [if_neg ha, List.lookup_cons, List.lookup_cons]
      cases hk2 : (k2 == a.1)
      · exact ih
      · rfl

/-- Decomposition of an association list with distinct keys around the
binding a successful lookup found, together with the effect of `stSet`. -/
theorem lookup_decomp (m : List (String × LocalFileState)) (k : String)
    (st : LocalFileState) (hnd : (m.map Prod.fst).Nodup)
    (h : m.lookup k = some st) :
    ∃ l1 l2, m = l1 ++ (k, st) :: l2 ∧ k ∉ l1.map Prod.fst ∧ k ∉ l2.map Prod.fst ∧
      ∀ v, stSet m k v = l1 ++ (k, v) :: l2 := by
  induction m with
  | nil => simp [List.lookup] at h
  | cons a rest ih =>
    rw [List.lookup_cons] at h
    by_cases hk : k = a.1
    · subst hk
      simp at h
      refine ⟨[], rest, ?_, ?_, ?_, ?_⟩
      · simp [← h]
      · simp
      · simpa using (List.nodup_cons.mp hnd).1
      · intro v
        have hnotin : a.1 ∉ rest.map Prod.fst := (List.nodup_cons.mp hnd).1
        have hrest : ∀ p ∈ rest, p.1 ≠ a.1 := by
          intro p hp hpe
          exact hnotin (hpe ▸ List.mem_map_of_mem Prod.fst hp)
        simp only [stSet, List.map_cons, if_pos rfl, List.nil_append]
        congr 1
        calc rest.map (fun p => if p.1 = a.1 then (a.1, v) else p)
            = rest.map id := by
              apply List.map_congr_left
              intro p hp
              simp [hrest p hp]
          _ = rest := List.map_id rest
    · have hne : (k == a.1) = false := beq_false_of_ne hk
      rw [hne] at h
      obtain ⟨l1, l2, hm, h1, h2, hset⟩ := ih (List.nodup_cons.mp hnd).2 h
      refine ⟨a :: l1, l2, by simp [hm], ?_, h2, ?_⟩
      · simp [h1, hk]
      · intro v
        have : a.1 ≠ k := fun he => hk he.symm
        simp [stSet, this] at hset ⊢
        exact hset v

/-- The local-file paths of the entries not yet marked checked. -/
def uncheckedPaths (states : List (String × LocalFileState)) : List String :=
  states.filterMap (fun p => if p.2.checked = false then some p.2.file.path else none)

/-- Every entry marked skip is also marked checked. -/
def skipImpChecked (states : List (String × LocalFileState)) : Prop :=
  ∀ p ∈ states, p.2.skip = true → p.2.checked = true


/-- Lookup of the distinguished key in a decomposed association list. -/
theorem lookup_append_cons_self (l1 l2 : List (String × LocalFileState))
    (k : String) (v : LocalFileState) (h : k ∉ l1.map Prod.fst) :
    (l1 ++ (k, v) :: l2).lookup k = some v := by
  induction l1 with
  | nil => simp [List.lookup_cons]
  | cons a rest ih =>
    simp only [List.map_cons, List.mem_cons] at h
    push_neg at h
    have hne : (k == a.1) = false := beq_false_of_ne h.1
    simp only [List.cons_append]
    rw [List.lookup_cons, hne]
    exact ih h.2

/-- The multiset of local-file paths in flight through the checker: paths
of the skipped-outcome records sent, of the upload tasks sent, and of the
still-unchecked state entries. -/
def flowPaths (acc : SkipAcc) : Multiset String :=
  (↑(acc.results.map (fun s => s.path)) : Multiset String) +
    ↑(acc.tasks.map (fun t => t.localFile.path)) + ↑(uncheckedPaths acc.states)

/-- Moving one path from the unchecked pool to the end of the first list
conserves the flow multiset. -/
theorem flow_move_results (R T A B : List String) (p : String) :
    (↑(R ++ [p]) : Multiset String) + ↑T + ↑(A ++ B) = ↑R + ↑T + ↑(A ++ p :: B) := by
  have h : ∀ (s t : List String), (↑(s ++ t) : Multiset String) = ↑s + ↑t :=
    fun s t => (Multiset.coe_add s t).symm
  simp only [h]
  simp only [← Multiset.cons_coe, ← Multiset.singleton_add, Multiset.coe_singleton]
  abel

/-- Moving one path from the unchecked pool to the end of the second list
conserves the flow multiset. -/
theorem flow_move_tasks (R T A B : List String) (p : String) :
    (↑R : Multiset String) + ↑(T ++ [p]) + ↑(A ++ B) = ↑R + ↑T + ↑(A ++ p :: B) := by
  have h : ∀ (s t : List String), (↑(s ++ t) : Multiset String) = ↑s + ↑t :=
    fun s t => (Multiset.coe_add s t).symm
  simp only [h]
  simp only [← Multiset.cons_coe, ← Multiset.singleton_add, Multiset.coe_singleton]
  abel

/-- A remote entry with no local counterpart leaves the checker state
untouched (shared between the C8 theorem and the pipeline lemmas). -/
theorem skipCheckerStep_no_local (remoteDir : String) (acc : SkipAcc)
    (remoteFile : RemoteFileInfo) (h : acc.states.lookup remoteFile.path = none) :
    skipCheckerStep remoteDir acc remoteFile = acc := by
  simp [skipCheckerStep, h]

/-- Effect of one checker iteration on a matched, not-yet-checked local
file: the flow multiset is conserved (one path moves from unchecked to
either a skipped record or an upload task), the key column is unchanged,
other bindings are unchanged, the matched binding becomes checked, and
skip-implies-checked is preserved. -/
theorem skipCheckerStep_matched (remoteDir : String) (acc : SkipAcc)
    (r : RemoteFileInfo) (st : LocalFileState)
    (hnd : (acc.states.map Prod.fst).Nodup)
    (h : acc.states.lookup r.path = some st) (hst : st.checked = false) :
    flowPaths (skipCheckerStep remoteDir acc r) = flowPaths acc ∧
    (skipCheckerStep remoteDir acc r).states.map Prod.fst = acc.states.map Prod.fst ∧
    (∀ k2, k2 ≠ r.path →
      (skipCheckerStep remoteDir acc r).states.lookup k2 = acc.states.lookup k2) ∧
    (∃ st2, (skipCheckerStep remoteDir acc r).states.lookup r.path = some st2 ∧
      st2.checked = true) ∧
    (skipImpChecked acc.states → skipImpChecked (skipCheckerStep remoteDir acc r).states) := by
  obtain ⟨l1, l2, hm, h1, h2, hset⟩ := lookup_decomp acc.states r.path st hnd h
  by_cases hskip : (shouldSkipUpload st.file r).1
  · have hstep : skipCheckerStep remoteDir acc r =
        { states := stSet acc.states r.path
            { file := st.file, checked := true, skip := true,
              reason := (shouldSkipUpload st.file r).2 },
          results := acc.results ++
            [{ path := st.file.path, success := true, error := none,
               skipped := true, reason := (shouldSkipUpload st.file r).2 }],
          tasks := acc.tasks } := by
      simp [skipCheckerStep, h, hskip]
    refine ⟨?_, ?_, ?_, ?_, ?_⟩
    · rw [hstep]
      simp only [flowPaths, hset]
      conv_rhs => rw [hm]
      simp only [uncheckedPaths, List.filterMap_append, List.filterMap_cons,
        List.map_append, List.map_cons, List.map_nil, hst]
      simp only [if_neg, if_pos, reduceIte]
      exact flow_move_results _ _ _ _ _
    · rw [hstep]
      exact stSet_map_fst acc.states r.path _
    · intro k2 hk2
      rw [hstep]
      exact lookup_stSet_ne acc.states r.path k2 _ hk2
    · rw [hstep, hset]
      exact ⟨_, lookup_append_cons_self l1 l2 r.path _ h1, rfl⟩
    · intro himp p hp hsk
      rw [hstep, hset] at hp
      rcases List.mem_append.mp hp with hp1 | hp2
      · exact himp p (by rw [hm]; exact List.mem_append_left _ hp1) hsk
      · rcases List.mem_cons.mp hp2 with hpe | hp3
        · rw [hpe]
        · exact himp p
            (by rw [hm]; exact List.mem_append_right _ (List.mem_cons_of_mem _ hp3)) hsk
  · have hstep : skipCheckerStep remoteDir acc r =
        { states := stSet acc.states r.path
            { file := st.file, checked := true, skip := st.skip, reason := st.reason },
          results := acc.results,
          tasks := acc.tasks ++
            [{ localFile := st.file,
               remotePath := goBackslashToSlash (goJoin remoteDir st.file.relPath) }] } := by
      simp [skipCheckerStep, h, hskip]
    refine ⟨?_, ?_, ?_, ?_, ?_⟩
    · rw [hstep]
      simp only [flowPaths, hset]
      conv_rhs => rw [hm]
      simp only [uncheckedPaths, List.filterMap_append, List.filterMap_cons,
        List.map_append, List.map_cons, List.map_nil, hst]
      simp only [if_neg, if_pos, reduceIte]
      exact flow_move_tasks _ _ _ _ _
    · rw [hstep]
      exact stSet_map_fst acc.states r.path _
    · intro k2 hk2
      rw [hstep]
      exact lookup_stSet_ne acc.states r.path k2 _ hk2
    · rw [hstep, hset]
      exact ⟨_, lookup_append_cons_self l1 l2 r.path _ h1, rfl⟩
    · intro himp p hp hsk
      rw [hstep, hset] at hp
      rcases List.mem_append.mp hp with hp1 | hp2
      · exact himp p (by rw [hm]; exact List.mem_append_left _ hp1) hsk
      · rcases List.mem_cons.mp hp2 with hpe | hp3
        · rw [hpe] at hsk
          simp only at hsk
          have : st.checked = true := himp (r.path, st)
            (by rw [hm]; exact List.mem_append_right _ (List.mem_cons_self _ _)) hsk
          rw [this] at hst
          exact absurd hst (by simp)
        · exact himp p
            (by rw [hm]; exact List.mem_append_right _ (List.mem_cons_of_mem _ hp3)) hsk

/-- The checker loop conserves the flow multiset and the key column, and
preserves skip-implies-checked, provided the streamed paths are distinct
and every matched binding is still unchecked on arrival. -/
theorem skipCheckerLoop_spec (remoteDir : String) :
    ∀ (rs : List RemoteFileInfo) (acc : SkipAcc),
    (acc.states.map Prod.fst).Nodup →
    (rs.map (fun r => r.path)).Nodup →
    (∀ r ∈ rs, ∀ st, acc.states.lookup r.path = some st → st.checked = false) →
    flowPaths (skipCheckerLoop remoteDir acc rs) = flowPaths acc ∧
    (skipCheckerLoop remoteDir acc rs).states.map Prod.fst = acc.states.map Prod.fst ∧
    (skipImpChecked acc.states → skipImpChecked (skipCheckerLoop remoteDir acc rs).states) := by
  intro rs
  induction rs with
  | nil =>
    intro acc _ _ _
    exact ⟨rfl, rfl, fun h => h⟩
  | cons r rest ih =>
    intro acc hnd hnodup hun
    rw [List.map_cons, List.nodup_cons] at hnodup
    cases hlook : acc.states.lookup r.path with
    | none =>
      have hstep := skipCheckerStep_no_local remoteDir acc r hlook
      have := ih acc hnd hnodup.2 (fun r2 hr2 => hun r2 (List.mem_cons_of_mem _ hr2))
      simpa [skipCheckerLoop, hstep] using this
    | some st =>
      have hst : st.checked = false := hun r (List.mem_cons_self _ _) st hlook
      obtain ⟨hflow, hkeys, hlookne, _hre, himp⟩ :=
        skipCheckerStep_matched remoteDir acc r st hnd hlook hst
      have hnd2 : ((skipCheckerStep remoteDir acc r).states.map Prod.fst).Nodup := by
        rw [hkeys]; exact hnd
      have hun2 : ∀ r2 ∈ rest, ∀ st2,
          (skipCheckerStep remoteDir acc r).states.lookup r2.path = some st2 →
          st2.checked = false := by
        intro r2 hr2 st2 hlook2
        have hne : r2.path ≠ r.path := by
          intro he
          exact hnodup.1 (he ▸ List.mem_map_of_mem (fun r3 => r3.path) hr2)
        rw [hlookne r2.path hne] at hlook2
        exact hun r2 (List.mem_cons_of_mem _ hr2) st2 hlook2
      obtain ⟨hflow2, hkeys2, himp2⟩ :=
        ih (skipCheckerStep remoteDir acc r) hnd2 hnodup.2 hun2
      refine ⟨?_, ?_, ?_⟩
      · rw [skipCheckerLoop, hflow2, hflow]
      · rw [skipCheckerLoop, hkeys2, hkeys]
      · intro h0
        exact himp2 (himp h0)

/-- The residual sweep enqueues exactly the still-unchecked files (under
skip-implies-checked, "unchecked and not skip" is just "unchecked"). -/
theorem residualSweep_paths (remoteDir : String)
    (states : List (String × LocalFileState)) (himp : skipImpChecked states) :
    (residualSweep remoteDir states).map (fun t => t.localFile.path) =
      uncheckedPaths states := by
  induction states with
  | nil => rfl
  | cons p rest ih =>
    have hrest : skipImpChecked rest := fun q hq => himp q (List.mem_cons_of_mem _ hq)
    cases hc : p.2.checked with
    | true =>
      simp [residualSweep, uncheckedPaths, hc] at ih ⊢
      exact ih hrest
    | false =>
      have hs : p.2.skip = false := by
        cases hsk : p.2.skip with
        | false => rfl
        | true =>
          have := himp p (List.mem_cons_self _ _) hsk
          rw [this] at hc; exact absurd hc (by simp)
      simp [residualSweep, uncheckedPaths, hc, hs] at ih ⊢
      exact ih hrest

/-- In an all-unchecked state map the unchecked pool is the whole path
column. -/
theorem uncheckedPaths_all_unchecked (states : List (String × LocalFileState))
    (h : ∀ p ∈ states, p.2.checked = false) :
    uncheckedPaths states = states.map (fun p => p.2.file.path) := by
  induction states with
  | nil => rfl
  | cons p rest ih =>
    have hrest := ih (fun q hq => h q (List.mem_cons_of_mem _ hq))
    simp [uncheckedPaths, h p (List.mem_cons_self _ _)] at hrest ⊢
    exact hrest

/-- Conservation through the whole skip checker: the paths of the skipped
records plus the paths of all upload tasks are, as a multiset, exactly the
local-file paths of the initial (all-unchecked, all-unskipped) state map. -/
theorem skipChecker_conservation (localStates : List (String × LocalFileState))
    (remoteStream : List RemoteFileInfo) (remoteDir : String)
    (hnd : (localStates.map Prod.fst).Nodup)
    (hnodup : (remoteStream.map (fun r => r.path)).Nodup)
    (hinit : ∀ p ∈ localStates, p.2.checked = false ∧ p.2.skip = false) :
    (↑((skipChecker localStates remoteStream remoteDir).1.map (fun s => s.path))
        : Multiset String) +
      ↑((skipChecker localStates remoteStream remoteDir).2.map
        (fun t => t.localFile.path)) =
      ↑(localStates.map (fun p => p.2.file.path)) := by
  have hun : ∀ r ∈ remoteStream, ∀ st, localStates.lookup r.path = some st →
      st.checked = false := by
    intro r _ st hlook
    exact (hinit (r.path, st) (mem_of_lookup_eq localStates r.path st hlook)).1
  obtain ⟨hflow, _hkeys, himp⟩ :=
    skipCheckerLoop_spec remoteDir remoteStream ⟨localStates, [], []⟩ hnd hnodup hun
  have himp0 : skipImpChecked localStates := by
    intro p hp hsk
    exact absurd hsk (by simp [(hinit p hp).2])
  have himpf := himp himp0
  have hres := residualSweep_paths remoteDir
    (skipCheckerLoop remoteDir ⟨localStates, [], []⟩ remoteStream).states himpf
  have hinit_unchecked : uncheckedPaths localStates =
      localStates.map (fun p => p.2.file.path) :=
    uncheckedPaths_all_unchecked localStates (fun p hp => (hinit p hp).1)
  simp only [skipChecker, List.map_append, hres]
  have h : ∀ (s t : List String), (↑(s ++ t) : Multiset String) = ↑s + ↑t :=
    fun s t => (Multiset.coe_add s t).symm
  rw [h]
  have hflow_init : flowPaths ⟨localStates, [], []⟩ =
      ↑(localStates.map (fun p => p.2.file.path)) := by
    simp [flowPaths, hinit_unchecked]
  rw [← hflow_init, ← hflow]
  simp only [flowPaths]
  abel

/-! ## Materialising the local walk -/

mutual

/-- Number of regular files under one node. -/
def fileCountNode : LocalNode → Nat
  | LocalNode.file _ _ _ => 1
  | LocalNode.dir _ children => fileCount children
  | LocalNode.errNode _ _ => 0

/-- Number of regular files in a local tree. -/
def fileCount : List LocalNode → Nat
  | [] => 0
  | node :: rest => fileCountNode node + fileCount rest

end

mutual

/-- The entries a successful error-free walk produces for one node
(specification-side mirror of `walkLocalNode`; `errNode`s contribute
nothing here because a walk that meets one does not succeed). -/
def walkEntriesNode : String → String → LocalNode → List (String × LocalFileInfo)
  | dirPath, relDir, LocalNode.file name size checksumRes =>
    [(goBackslashToSlash (relJoin relDir name),
      { path := goJoin dirPath name, size := size, checksum := checksumRes.getD "",
        relPath := goBackslashToSlash (relJoin relDir name) })]
  | dirPath, relDir, LocalNode.dir name children =>
    walkEntries (goJoin dirPath name) (relJoin relDir name) children
  | _, _, LocalNode.errNode _ _ => []

/-- The entry list a successful error-free walk produces, in visit order
(specification-side mirror of `walkLocal`). -/
def walkEntries : String → String → List LocalNode → List (String × LocalFileInfo)
  | _, _, [] => []
  | dirPath, relDir, node :: rest =>
    walkEntriesNode dirPath relDir node ++ walkEntries dirPath relDir rest

end

/-- A key absent from the key column looks up to nothing. -/
theorem lookup_eq_none_of_not_mem {α : Type} (m : List (String × α)) (k : String)
    (h : k ∉ m.map Prod.fst) : m.lookup k = none := by
  induction m with
  | nil => rfl
  | cons a rest ih =>
    simp only [List.map_cons, List.mem_cons] at h
    push_neg at h
    rw [List.lookup_cons, beq_false_of_ne h.1]
    exact ih h.2

/-- Assigning a fresh key appends the binding. -/
theorem goMapSet_fresh {α : Type} (m : List (String × α)) (k : String) (v : α)
    (h : k ∉ m.map Prod.fst) : goMapSet m k v = m ++ [(k, v)] := by
  simp [goMapSet, lookup_eq_none_of_not_mem m k h]

/-- A successful walk with globally distinct relative paths extends the
accumulated map with exactly the visit-order entry list of the tree
(joint node-level and listing-level statement). -/
theorem walkLocal_spec_all (relErr : String → Option String) (localDir : String) :
    (∀ (dirPath relDir : String) (node : LocalNode)
        (m m2 : List (String × LocalFileInfo)),
      walkLocalNode relErr localDir dirPath relDir node m = Except.ok m2 →
      ((m.map Prod.fst) ++ (walkEntriesNode dirPath relDir node).map Prod.fst).Nodup →
      m2 = m ++ walkEntriesNode dirPath relDir node) ∧
    (∀ (dirPath relDir : String) (nodes : List LocalNode)
        (m m2 : List (String × LocalFileInfo)),
      walkLocal relErr localDir dirPath relDir nodes m = Except.ok m2 →
      ((m.map Prod.fst) ++ (walkEntries dirPath relDir nodes).map Prod.fst).Nodup →
      m2 = m ++ walkEntries dirPath relDir nodes) := by
  apply walkEntriesNode.mutual_induct
  · -- file node
    intro dp rd name size checksumRes
    intro m m2 hok hnd
    rw [walkLocalNode.eq_def] at hok
    dsimp only at hok
    cases hrel : relErr (goJoin dp name) with
    | some e => rw [hrel] at hok; cases hok
    | none =>
      rw [hrel] at hok
      dsimp only at hok
      simp only [walkEntriesNode, List.map_cons, List.map_nil] at hnd ⊢
      have hfresh : goBackslashToSlash (relJoin rd name) ∉ m.map Prod.fst := by
        rcases List.nodup_append.mp hnd with ⟨-, -, hdisj⟩
        intro hmem
        exact hdisj hmem (List.mem_cons_self _ _)
      rw [goMapSet_fresh m (goBackslashToSlash (relJoin rd name)) _ hfresh] at hok
      cases hok
      rfl
  · -- directory node
    intro dp rd name children ih
    intro m m2 hok hnd
    rw [walkLocalNode.eq_def] at hok
    dsimp only at hok
    simp only [walkEntriesNode] at hnd ⊢
    exact ih m m2 hok hnd
  · -- error node
    intro dp rd name msg
    intro m m2 hok _
    rw [walkLocalNode.eq_def] at hok
    cases hok
  · -- empty listing
    intro dp rd m m2 hok _
    rw [walkLocal.eq_def] at hok
    cases hok
    simp [walkEntries]
  · -- listing cons
    intro dp rd node rest ih1 ih2
    intro m m2 hok hnd
    rw [walkLocal.eq_def] at hok
    dsimp only at hok
    cases hn : walkLocalNode relErr localDir dp rd node m with
    | error e => rw [hn] at hok; cases hok
    | ok mmid =>
      rw [hn] at hok
      dsimp only at hok
      simp only [walkEntries, List.map_append] at hnd ⊢
      have hnd1 : ((m.map Prod.fst) ++
          (walkEntriesNode dp rd node).map Prod.fst).Nodup := by
        have := hnd
        rw [← List.append_assoc] at this
        exact this.sublist (by simp)
      have hmid := ih1 m mmid hn hnd1
      have hnd2 : ((mmid.map Prod.fst) ++ (walkEntries dp rd rest).map Prod.fst).Nodup := by
        rw [hmid]
        simpa [List.append_assoc] using hnd
      have := ih2 mmid m2 hok hnd2
      rw [this, hmid, List.append_assoc]

/-- Listing-level corollary of `walkLocal_spec_all`. -/
theorem walkLocal_spec (relErr : String → Option String) (localDir : String) :
    ∀ (dirPath relDir : String) (nodes : List LocalNode)
      (m m2 : List (String × LocalFileInfo)),
    walkLocal relErr localDir dirPath relDir nodes m = Except.ok m2 →
    ((m.map Prod.fst) ++ (walkEntries dirPath relDir nodes).map Prod.fst).Nodup →
    m2 = m ++ walkEntries dirPath relDir nodes :=
  (walkLocal_spec_all relErr localDir).2

/-- The walk discovers exactly `fileCount` entries (joint statement). -/
theorem walkEntries_length_all :
    (∀ (dirPath relDir : String) (node : LocalNode),
      (walkEntriesNode dirPath relDir node).length = fileCountNode node) ∧
    (∀ (dirPath relDir : String) (nodes : List LocalNode),
      (walkEntries dirPath relDir nodes).length = fileCount nodes) := by
  apply walkEntriesNode.mutual_induct
  · intro dp rd name size checksumRes
    simp [walkEntriesNode, fileCountNode]
  · intro dp rd name children ih
    simp [walkEntriesNode, fileCountNode, ih]
  · intro dp rd name msg
    simp [walkEntriesNode, fileCountNode]
  · intro dp rd
    simp [walkEntries, fileCount]
  · intro dp rd node rest ih1 ih2
    simp [walkEntries, fileCount, ih1, ih2]

/-- The walk discovers exactly `fileCount` entries. -/
theorem walkEntries_length :
    ∀ (dirPath relDir : String) (nodes : List LocalNode),
    (walkEntries dirPath relDir nodes).length = fileCount nodes :=
  walkEntries_length_all.2

/-- Each upload worker emits exactly one record per task, bearing the
task's local path. -/
theorem uploader_paths (env : NetEnv) (zone : StorageZone)
    (tasks : List FileUploadTask) :
    (uploader env zone tasks).map (fun s => s.path) =
      tasks.map (fun t => t.localFile.path) := by
  induction tasks with
  | nil => rfl
  | cons t rest ih => simp [uploader] at ih ⊢

/-- Shared report-completeness lemma: on a successful run (the local walk
succeeded), the report carries, as a multiset, exactly one outcome record
per regular file discovered by the walk — its path column is the path
column of the walk's entry list — and the number of records equals the
number of regular files.  Hypotheses: the walk's relative paths are
pairwise distinct (true of any real directory tree) and so are the
streamed remote paths (true of any real remote tree). -/
theorem uploadDirectoryOptimized_report_spec
    (relErr : String → Option String) (failsAt : String → Bool) (env : NetEnv)
    (zone : StorageZone) (localDir remoteDir : String)
    (localTree : List LocalNode) (remoteTree : List RemoteNode)
    (m : List (String × LocalFileInfo))
    (hok : buildLocalFileMap relErr localDir localTree = Except.ok m)
    (hkeys : ((walkEntries localDir "" localTree).map Prod.fst).Nodup)
    (hstream : ((remoteFileStreamer failsAt remoteDir remoteTree).map
      (fun r => r.path)).Nodup) :
    (↑((uploadDirectoryOptimized relErr failsAt env zone localDir remoteDir localTree
        remoteTree).map (fun s => s.path)) : Multiset String)
      = ↑((walkEntries localDir "" localTree).map (fun p => p.2.path)) ∧
    (uploadDirectoryOptimized relErr failsAt env zone localDir remoteDir localTree
        remoteTree).length = fileCount localTree := by
  have hm : m = walkEntries localDir "" localTree := by
    have := walkLocal_spec relErr localDir localDir "" localTree [] m hok
      (by simpa using hkeys)
    simpa using this
  subst hm
  set entries := walkEntries localDir "" localTree with hentries
  set localStates := entries.map (fun p =>
    (p.1, { file := p.2, checked := false, skip := false, reason := "" : LocalFileState }))
    with hlocalStates
  have hrun : uploadDirectoryOptimized relErr failsAt env zone localDir remoteDir
      localTree remoteTree =
      (skipChecker localStates (remoteFileStreamer failsAt remoteDir remoteTree)
        remoteDir).1 ++
      uploader env zone
        (skipChecker localStates (remoteFileStreamer failsAt remoteDir remoteTree)
          remoteDir).2 := by
    simp only [uploadDirectoryOptimized, hok]
  have hndStates : (localStates.map Prod.fst).Nodup := by
    have : localStates.map Prod.fst = entries.map Prod.fst := by
      simp [hlocalStates]
    rw [this]
    exact hkeys
  have hinit : ∀ p ∈ localStates, p.2.checked = false ∧ p.2.skip = false := by
    intro p hp
    simp only [hlocalStates, List.mem_map] at hp
    obtain ⟨q, _, hq⟩ := hp
    rw [← hq]
    exact ⟨rfl, rfl⟩
  have hcons := skipChecker_conservation localStates
    (remoteFileStreamer failsAt remoteDir remoteTree) remoteDir hndStates hstream hinit
  have hstpaths : localStates.map (fun p => p.2.file.path) =
      entries.map (fun p => p.2.path) := by
    simp [hlocalStates]
  rw [hstpaths] at hcons
  constructor
  · rw [hrun, List.map_append, uploader_paths]
    rw [← Multiset.coe_add]
    exact hcons
  · have hcard : ((uploadDirectoryOptimized relErr failsAt env zone localDir remoteDir
        localTree remoteTree).map (fun s => s.path)).length =
        (entries.map (fun p => p.2.path)).length := by
      have h1 : (↑((uploadDirectoryOptimized relErr failsAt env zone localDir remoteDir
          localTree remoteTree).map (fun s => s.path)) : Multiset String).card
          = (↑(entries.map (fun p => p.2.path)) : Multiset String).card := by
        rw [hrun, List.map_append, uploader_paths, ← Multiset.coe_add, hcons]
      simpa using h1
    rw [List.length_map, List.length_map] at hcard
    rw [hcard, hentries]
    exact walkEntries_length localDir "" localTree

/-- C1: for every run of `uploadDirectoryOptimized` whose local walk
succeeds, the returned report contains exactly one outcome record
(`FileUploadStatus`) per regular file discovered under the local root at
Init time — as a multiset, the report's path column equals the walk's
path column — and hence the number of records equals the number of
regular files, with zero records for an empty directory (the `localTree =
[]` instance, where both sides are empty). -/
theorem uploadDirectoryOptimized_one_record_per_file
    (relErr : String → Option String) (failsAt : String → Bool) (env : NetEnv)
    (zone : StorageZone) (localDir remoteDir : String)
    (localTree : List LocalNode) (remoteTree : List RemoteNode)
    (m : List (String × LocalFileInfo))
    (hok : buildLocalFileMap relErr localDir localTree = Except.ok m)
    (hkeys : ((walkEntries localDir "" localTree).map Prod.fst).Nodup)
    (hstream : ((remoteFileStreamer failsAt remoteDir remoteTree).map
      (fun r => r.path)).Nodup) :
    (↑((uploadDirectoryOptimized relErr failsAt env zone localDir remoteDir localTree
        remoteTree).map (fun s => s.path)) : Multiset String)
      = ↑((walkEntries localDir "" localTree).map (fun p => p.2.path)) ∧
    (uploadDirectoryOptimized relErr failsAt env zone localDir remoteDir localTree
        remoteTree).length = fileCount localTree :=
  uploadDirectoryOptimized_report_spec relErr failsAt env zone localDir remoteDir
    localTree remoteTree m hok hkeys hstream

/-- Witness for C1 at a concrete run: two local files (one inside a
subdirectory), a remote tree holding only an unrelated file, every
hypothesis evaluated on the concrete data. -/
theorem uploadDirectoryOptimized_one_record_per_file_witness :
    (uploadDirectoryOptimized (fun _ => none) (fun _ => false)
      ⟨fun _ => Except.ok "data", fun _ => FetchResult.response 201 "201 Created" ""⟩
      ⟨"zone", "pw"⟩ "site" ""
      [LocalNode.dir "css" [LocalNode.file "style.css" 10 (some "AB")],
       LocalNode.file "index.html" 5 none]
      [RemoteNode.file "extra.txt" 7 "ZZ"]).length =
      fileCount [LocalNode.dir "css" [LocalNode.file "style.css" 10 (some "AB")],
        LocalNode.file "index.html" 5 none] :=
  (uploadDirectoryOptimized_one_record_per_file (fun _ => none) (fun _ => false)
    ⟨fun _ => Except.ok "data", fun _ => FetchResult.response 201 "201 Created" ""⟩
    ⟨"zone", "pw"⟩ "site" ""
    [LocalNode.dir "css" [LocalNode.file "style.css" 10 (some "AB")],
     LocalNode.file "index.html" 5 none]
    [RemoteNode.file "extra.txt" 7 "ZZ"]
    (walkEntries "site" ""
      [LocalNode.dir "css" [LocalNode.file "style.css" 10 (some "AB")],
       LocalNode.file "index.html" 5 none])
    (by rfl) (by decide) (by decide)).2

/-- C8: a streamed remote entry whose relative path has no local
counterpart is ignored entirely by the classification step — the checker
state after processing it equals the state before it: no outcome record is
emitted, no upload task is enqueued, and every local-file state is
unchanged.  (The engine has no remote-deletion operation anywhere, so no
deletion can be issued; ignoring the entry is the entire effect.) -/
theorem skipChecker_remote_only_ignored (remoteDir : String) (acc : SkipAcc)
    (remoteFile : RemoteFileInfo)
    (h : acc.states.lookup remoteFile.path = none) :
    skipCheckerStep remoteDir acc remoteFile = acc := by
  simp [skipCheckerStep, h]

/-- Witness for C8 at a concrete state and remote-only entry. -/
theorem skipChecker_remote_only_ignored_witness :
    skipCheckerStep ""
      ⟨[("index.html",
          { file := { path := "site/index.html", size := 5, checksum := "CD",
                      relPath := "index.html" },
            checked := false, skip := false, reason := "" })], [], []⟩
      { name := "ghost.txt", isDirectory := false, size := 3, lastModified := "",
        checksum := "EE", path := "ghost.txt" } =
      ⟨[("index.html",
          { file := { path := "site/index.html", size := 5, checksum := "CD",
                      relPath := "index.html" },
            checked := false, skip := false, reason := "" })], [], []⟩ :=
  skipChecker_remote_only_ignored "" _ _ (by decide)

/-- C6: a listing error for a specific subdirectory never fails the whole
streaming enumeration: the emitted stream equals the failure-free stream
of the tree with exactly the failing subtrees removed — sibling subtrees
are enumerated unchanged — and a run whose remote enumeration hits such
failures still terminates with a complete report (one record per local
file, under the usual distinctness hypotheses). -/
theorem remoteFileStreamer_subtree_failure_localized
    (failsAt : String → Bool) (remoteDir : String) :
    (∀ (currentPath : String) (nodes : List RemoteNode),
      streamFiles failsAt remoteDir currentPath nodes =
        streamFiles (fun _ => false) remoteDir currentPath
          (pruneFailing failsAt currentPath nodes)) ∧
    (∀ (relErr : String → Option String) (env : NetEnv) (zone : StorageZone)
        (localDir : String) (localTree : List LocalNode)
        (remoteTree : List RemoteNode) (m : List (String × LocalFileInfo)),
      buildLocalFileMap relErr localDir localTree = Except.ok m →
      ((walkEntries localDir "" localTree).map Prod.fst).Nodup →
      ((remoteFileStreamer failsAt remoteDir remoteTree).map
        (fun r => r.path)).Nodup →
      (uploadDirectoryOptimized relErr failsAt env zone localDir remoteDir localTree
        remoteTree).length = fileCount localTree) := by
  refine ⟨(streamFiles_prune failsAt remoteDir).2, ?_⟩
  intro relErr env zone localDir localTree remoteTree m hok hkeys hstream
  exact (uploadDirectoryOptimized_report_spec relErr failsAt env zone localDir
    remoteDir localTree remoteTree m hok hkeys hstream).2

/-- Witness for C6: a failing subdirectory listing (`assets/bad`) drops
exactly that subtree from the stream; the sibling subtree survives. -/
theorem remoteFileStreamer_subtree_failure_localized_witness :
    streamFiles (fun p => p == "assets/bad") "assets" "assets"
      [RemoteNode.dir "bad" [RemoteNode.file "x" 1 "A"],
       RemoteNode.dir "good" [RemoteNode.file "y" 2 "B"]] =
      streamFiles (fun _ => false) "assets" "assets"
        (pruneFailing (fun p => p == "assets/bad") "assets"
          [RemoteNode.dir "bad" [RemoteNode.file "x" 1 "A"],
           RemoteNode.dir "good" [RemoteNode.file "y" 2 "B"]]) ∧
    pruneFailing (fun p => p == "assets/bad") "assets"
      [RemoteNode.dir "bad" [RemoteNode.file "x" 1 "A"],
       RemoteNode.dir "good" [RemoteNode.file "y" 2 "B"]] =
      [RemoteNode.dir "good" [RemoteNode.file "y" 2 "B"]] :=
  ⟨(remoteFileStreamer_subtree_failure_localized (fun p => p == "assets/bad")
      "assets").1 "assets" _, by rfl⟩

/-- Witness for C9: a 503 response surfaces as a failure whose message
carries the response body. -/
theorem uploadFileToStorage_success_iff_witness :
    uploadFileToStorage (Except.ok "bytes")
      (FetchResult.response 503 "503 Service Unavailable" "overloaded") "site/a.txt" =
      Except.error ("upload failed with status 503 Service Unavailable: overloaded") :=
  (uploadFileToStorage_success_iff (Except.ok "bytes")
    (FetchResult.response 503 "503 Service Unavailable" "overloaded") "site/a.txt").2
    503 "503 Service Unavailable" "overloaded" (by decide) ⟨"bytes", rfl⟩ rfl

/-! ## Path analysis: slash-separated component paths -/

/-- A well-formed path component (what a real file or directory name is):
non-empty, no separator, no backslash, not one of the special names `.`
and `..`. -/
def validNameB (s : String) : Bool :=
  !(s == "") && !(s.toList.contains '/') && !(s.toList.contains '\x5c') &&
    !(s == ".") && !(s == "..")

/-- The slash-separated path spelled by a component list (`""` for none). -/
def compsPath : List String → String
  | [] => ""
  | [c] => c
  | c :: rest => c ++ "/" ++ compsPath rest

/-- Character-list mirror of `compsPath`. -/
def charsPath : List (List Char) → List Char
  | [] => []
  | [c] => c
  | c :: rest => c ++ '/' :: charsPath rest

/-- Two strings with the same character list are equal. -/
theorem toList_inj {a b : String} (h : a.toList = b.toList) : a = b := by
  cases a
  cases b
  exact congrArg String.mk (by simpa [String.toList] using h)

/-- `toList` turns `compsPath` into `charsPath`. -/
theorem toList_compsPath :
    ∀ (cs : List String), (compsPath cs).toList = charsPath (cs.map String.toList) := by
  intro cs
  match cs with
  | [] => rfl
  | [c] => rfl
  | c :: c2 :: rest =>
    show (c ++ "/" ++ compsPath (c2 :: rest)).toList = _
    have ih := toList_compsPath (c2 :: rest)
    simp only [String.toList, String.data_append] at ih ⊢
    rw [ih]
    simp [charsPath, List.append_assoc]

/-- Splitting a slash-free segment yields the singleton segment. -/
theorem goSplitSlash_no_slash (seg : List Char) (h : '/' ∉ seg) :
    goSplitSlash seg = [seg] := by
  induction seg with
  | nil => rfl
  | cons c rest ih =>
    simp only [List.mem_cons] at h
    push_neg at h
    have h1 : c ≠ '/' := fun he => h.1 he.symm
    simp only [goSplitSlash, if_neg h1]
    rw [ih h.2]

/-- Splitting distributes over the first separator after a slash-free
segment. -/
theorem goSplitSlash_append (seg l : List Char) (h : '/' ∉ seg) :
    goSplitSlash (seg ++ '/' :: l) = seg :: goSplitSlash l := by
  induction seg with
  | nil => simp [goSplitSlash]
  | cons c rest ih =>
    simp only [List.mem_cons] at h
    push_neg at h
    have h1 : c ≠ '/' := fun he => h.1 he.symm
    simp only [List.cons_append, goSplitSlash, if_neg h1, List.append_eq]
    rw [ih h.2]

/-- Splitting inverts `charsPath` on slash-free non-empty segments. -/
theorem goSplitSlash_charsPath :
    ∀ (css : List (List Char)), css ≠ [] → (∀ seg ∈ css, '/' ∉ seg) →
    goSplitSlash (charsPath css) = css := by
  intro css
  match css with
  | [] => intro h; exact absurd rfl h
  | [c] =>
    intro _ h
    exact goSplitSlash_no_slash c (h c (List.mem_singleton.mpr rfl))
  | c :: c2 :: rest =>
    intro _ h
    show goSplitSlash (c ++ '/' :: charsPath (c2 :: rest)) = _
    rw [goSplitSlash_append c _ (h c (List.mem_cons_self _ _))]
    rw [goSplitSlash_charsPath (c2 :: rest) (by simp)
      (fun seg hs => h seg (List.mem_cons_of_mem _ hs))]

/-- The `..`-resolution loop is the identity on segment lists without
`..`. -/
theorem goCleanSegs_no_dotdot (rooted : Bool) :
    ∀ (css acc : List (List Char)), (∀ seg ∈ css, seg ≠ ['.', '.']) →
    goCleanSegs rooted acc css = acc.reverse ++ css := by
  intro css
  induction css with
  | nil => intro acc _; simp [goCleanSegs]
  | cons seg rest ih =>
    intro acc h
    have hs : seg ≠ ['.', '.'] := h seg (List.mem_cons_self _ _)
    simp only [goCleanSegs, if_neg hs]
    rw [ih (seg :: acc) (fun s hs2 => h s (List.mem_cons_of_mem _ hs2))]
    simp

/-- `List.intercalate` with separator `/` rebuilds `charsPath`. -/
theorem intercalate_charsPath :
    ∀ (css : List (List Char)), List.intercalate ['/'] css = charsPath css := by
  intro css
  match css with
  | [] => rfl
  | [c] => simp [List.intercalate, charsPath]
  | c :: c2 :: rest =>
    have step : List.intercalate ['/'] (c :: c2 :: rest) =
        c ++ '/' :: List.intercalate ['/'] (c2 :: rest) := by
      simp [List.intercalate, List.intersperse_cons_cons]
    rw [step, intercalate_charsPath (c2 :: rest)]
    rfl

/-- Unpacking `validNameB` at the character-list level. -/
theorem validName_parts (c : String) (h : validNameB c = true) :
    c.toList ≠ [] ∧ '/' ∉ c.toList ∧ '\x5c' ∉ c.toList ∧
      c.toList ≠ ['.'] ∧ c.toList ≠ ['.', '.'] := by
  simp only [validNameB, Bool.and_eq_true, Bool.not_eq_true'] at h
  obtain ⟨⟨⟨⟨h1, h2⟩, h3⟩, h4⟩, h5⟩ := h
  have hne : c ≠ "" := by simpa using h1
  have hdot : c ≠ "." := by simpa using h4
  have hdotdot : c ≠ ".." := by simpa using h5
  refine ⟨?_, ?_, ?_, ?_, ?_⟩
  · intro he
    exact hne (toList_inj (by simpa using he))
  · intro hm
    rw [← List.elem_iff] at hm
    have h2x : List.elem '/' c.toList = false := h2
    rw [hm] at h2x
    cases h2x
  · intro hm
    rw [← List.elem_iff] at hm
    have h3x : List.elem '\x5c' c.toList = false := h3
    rw [hm] at h3x
    cases h3x
  · intro he
    exact hdot (toList_inj (by simpa using he))
  · intro he
    exact hdotdot (toList_inj (by simpa using he))

/-- Explicit head decomposition of `charsPath` on a cons. -/
theorem charsPath_cons (c : List Char) (rest : List (List Char)) :
    charsPath (c :: rest) =
      c ++ (if rest = [] then [] else '/' :: charsPath rest) := by
  cases rest with
  | nil => simp [charsPath]
  | cons c2 t => simp [charsPath]

/-- Every character of `charsPath` is a separator or a segment character. -/
theorem mem_charsPath :
    ∀ (css : List (List Char)) (ch : Char), ch ∈ charsPath css →
      ch = '/' ∨ ∃ seg ∈ css, ch ∈ seg := by
  intro css
  match css with
  | [] => intro ch h; cases h
  | [c] =>
    intro ch h
    exact Or.inr ⟨c, List.mem_singleton.mpr rfl, h⟩
  | c :: c2 :: rest =>
    intro ch h
    simp only [charsPath, List.mem_append, List.mem_cons] at h
    rcases h with h1 | h2 | h3
    · exact Or.inr ⟨c, List.mem_cons_self _ _, h1⟩
    · exact Or.inl h2
    · rcases mem_charsPath (c2 :: rest) ch h3 with he | ⟨seg, hs, hm⟩
      · exact Or.inl he
      · exact Or.inr ⟨seg, List.mem_cons_of_mem _ hs, hm⟩

/-- A component path over valid names is a non-empty string. -/
theorem compsPath_ne_empty (cs : List String) (hne : cs ≠ [])
    (hv : ∀ c ∈ cs, validNameB c = true) : compsPath cs ≠ "" := by
  cases cs with
  | nil => exact absurd rfl hne
  | cons c rest =>
    intro he
    have h1 := (validName_parts c (hv c (List.mem_cons_self _ _))).1
    have hlist := toList_compsPath (c :: rest)
    rw [he] at hlist
    simp only [List.map_cons, charsPath_cons] at hlist
    have : c.toList = [] := by
      cases hx : c.toList with
      | nil => rfl
      | cons a t =>
        rw [hx] at hlist
        simp [String.toList] at hlist
    exact h1 this

/-- A component path over valid names never begins with the separator. -/
theorem compsPath_head_ne_slash (cs : List String) (hne : cs ≠ [])
    (hv : ∀ c ∈ cs, validNameB c = true) :
    ∃ ch t, (compsPath cs).toList = ch :: t ∧ ch ≠ '/' ∧ ch ≠ '\x5c' := by
  cases cs with
  | nil => exact absurd rfl hne
  | cons c rest =>
    obtain ⟨h1, h2, h3, _, _⟩ := validName_parts c (hv c (List.mem_cons_self _ _))
    obtain ⟨ch, ct, hc⟩ : ∃ ch ct, c.toList = ch :: ct := by
      cases hx : c.toList with
      | nil => exact absurd hx h1
      | cons a t => exact ⟨a, t, rfl⟩
    refine ⟨ch, ct ++ (if rest.map String.toList = [] then []
      else '/' :: charsPath (rest.map String.toList)), ?_, ?_, ?_⟩
    · rw [toList_compsPath]
      simp only [List.map_cons, charsPath_cons, hc]
      simp
    · intro he
      exact h2 (he ▸ (hc ▸ List.mem_cons_self ch ct))
    · intro he
      exact h3 (he ▸ (hc ▸ List.mem_cons_self ch ct))

/-- Facts about the character segments of valid component names. -/
theorem valid_segs (cs : List String) (hv : ∀ c ∈ cs, validNameB c = true) :
    ∀ seg ∈ cs.map String.toList,
      seg ≠ [] ∧ '/' ∉ seg ∧ '\x5c' ∉ seg ∧ seg ≠ ['.'] ∧ seg ≠ ['.', '.'] := by
  intro seg hs
  obtain ⟨c, hc, hce⟩ := List.mem_map.mp hs
  obtain ⟨h1, h2, h3, h4, h5⟩ := validName_parts c (hv c hc)
  exact hce ▸ ⟨h1, h2, h3, h4, h5⟩

/-- `goClean` is the identity on non-rooted paths built from valid
components. -/
theorem goClean_compsPath (cs : List String) (hne : cs ≠ [])
    (hv : ∀ c ∈ cs, validNameB c = true) :
    goClean (compsPath cs) = compsPath cs := by
  have hsegs := valid_segs cs hv
  have hlist : (compsPath cs).toList = charsPath (cs.map String.toList) :=
    toList_compsPath cs
  have hsne : compsPath cs ≠ "" := compsPath_ne_empty cs hne hv
  obtain ⟨ch, t, hht, hch, _⟩ := compsPath_head_ne_slash cs hne hv
  have hchf : (ch == '/') = false := by simpa using hch
  have hsplit : goSplitSlash (compsPath cs).toList = cs.map String.toList := by
    rw [hlist]
    exact goSplitSlash_charsPath (cs.map String.toList)
      (by simpa using hne) (fun seg hs => (hsegs seg hs).2.1)
  have hfilter : (cs.map String.toList).filter
      (fun seg => decide (seg ≠ [] ∧ seg ≠ ['.'])) = cs.map String.toList := by
    rw [List.filter_eq_self]
    intro seg hs
    simp [(hsegs seg hs).1, (hsegs seg hs).2.2.2.1]
  have hclean : goCleanSegs false [] (cs.map String.toList) = cs.map String.toList :=
    goCleanSegs_no_dotdot false (cs.map String.toList) []
      (fun seg hs => (hsegs seg hs).2.2.2.2)
  have hbody : String.mk (List.intercalate ['/'] (cs.map String.toList)) =
      compsPath cs := by
    rw [intercalate_charsPath, ← hlist]
    rfl
  rw [hht] at hsplit
  simp only [goClean, if_neg hsne, hht, hchf]
  rw [if_neg (show ¬(false = true) by simp)]
  rw [hsplit, hfilter, hclean, hbody, if_neg hsne]

/-- `goClean` is the identity on rooted paths built from valid
components. -/
theorem goClean_rooted_compsPath (cs : List String) (hne : cs ≠ [])
    (hv : ∀ c ∈ cs, validNameB c = true) :
    goClean ("/" ++ compsPath cs) = "/" ++ compsPath cs := by
  have hsegs := valid_segs cs hv
  have hlist : (compsPath cs).toList = charsPath (cs.map String.toList) :=
    toList_compsPath cs
  have hto : ("/" ++ compsPath cs).toList = '/' :: (compsPath cs).toList := rfl
  have hsne : ("/" ++ compsPath cs) ≠ "" := by
    intro he
    have : ("/" ++ compsPath cs).toList = [] := by rw [he]; rfl
    rw [hto] at this
    cases this
  have hsplit : goSplitSlash ('/' :: (compsPath cs).toList) =
      [] :: cs.map String.toList := by
    have h1 : goSplitSlash ('/' :: (compsPath cs).toList) =
        [] :: goSplitSlash (compsPath cs).toList := by
      simp [goSplitSlash]
    rw [h1, hlist, goSplitSlash_charsPath (cs.map String.toList)
      (by simpa using hne) (fun seg hs => (hsegs seg hs).2.1)]
  have hfilter : (([] : List Char) :: cs.map String.toList).filter
      (fun seg => decide (seg ≠ [] ∧ seg ≠ ['.'])) = cs.map String.toList := by
    have h2 : (cs.map String.toList).filter
        (fun seg => decide (seg ≠ [] ∧ seg ≠ ['.'])) = cs.map String.toList := by
      rw [List.filter_eq_self]
      intro seg hs
      simp [(hsegs seg hs).1, (hsegs seg hs).2.2.2.1]
    simp only [List.filter_cons]
    rw [h2]
    simp
  have hclean : goCleanSegs true [] (cs.map String.toList) = cs.map String.toList :=
    goCleanSegs_no_dotdot true (cs.map String.toList) []
      (fun seg hs => (hsegs seg hs).2.2.2.2)
  have hbody : String.mk (List.intercalate ['/'] (cs.map String.toList)) =
      compsPath cs := by
    rw [intercalate_charsPath, ← hlist]
    rfl
  simp only [goClean, if_neg hsne, hto]
  have htrue : ('/' == '/') = true := rfl
  rw [htrue, if_pos (show (true = true) from rfl), hsplit, hfilter, hclean, hbody]

/-- `compsPath` on a cons with non-empty tail. -/
theorem compsPath_cons_ne (c : String) (rest : List String) (h : rest ≠ []) :
    compsPath (c :: rest) = c ++ "/" ++ compsPath rest := by
  cases rest with
  | nil => exact absurd rfl h
  | cons d t => rfl

/-- `compsPath` distributes over append of non-empty component lists. -/
theorem compsPath_append (cs1 cs2 : List String) (h1 : cs1 ≠ []) (h2 : cs2 ≠ []) :
    compsPath (cs1 ++ cs2) = compsPath cs1 ++ "/" ++ compsPath cs2 := by
  induction cs1 with
  | nil => exact absurd rfl h1
  | cons c rest ih =>
    cases hr : rest with
    | nil =>
      simp only [List.singleton_append]
      rw [compsPath_cons_ne c cs2 h2]
      rfl
    | cons d t =>
      rw [← hr]
      have hrne : rest ≠ [] := by rw [hr]; simp
      have hrcs : rest ++ cs2 ≠ [] := by
        intro he
        exact hrne (List.append_eq_nil.mp he).1
      rw [List.cons_append, compsPath_cons_ne c (rest ++ cs2) hrcs, ih hrne,
        compsPath_cons_ne c rest hrne]
      simp [String.append_assoc]

/-- No backslash occurs in a component path over valid names. -/
theorem no_backslash_compsPath (cs : List String)
    (hv : ∀ c ∈ cs, validNameB c = true) : '\x5c' ∉ (compsPath cs).toList := by
  intro hm
  rw [toList_compsPath] at hm
  rcases mem_charsPath (cs.map String.toList) '\x5c' hm with he | ⟨seg, hs, hmem⟩
  · cases he
  · exact (valid_segs cs hv seg hs).2.2.1 hmem

/-- `goBackslashToSlash` is the identity on backslash-free strings. -/
theorem goBackslashToSlash_id (s : String) (h : '\x5c' ∉ s.toList) :
    goBackslashToSlash s = s := by
  unfold goBackslashToSlash
  have hmap : ∀ l : List Char, '\x5c' ∉ l →
      l.map (fun c => if c = '\x5c' then '/' else c) = l := by
    intro l hl
    induction l with
    | nil => rfl
    | cons a t ih =>
      simp only [List.mem_cons] at hl
      push_neg at hl
      have ha : a ≠ '\x5c' := fun he => hl.1 he.symm
      simp [ha, ih hl.2]
  rw [hmap s.toList h]
  rfl

/-- `goJoin` of a valid non-rooted component path and a valid name. -/
theorem goJoin_compsPath (cs : List String) (n : String) (hne : cs ≠ [])
    (hv : ∀ c ∈ cs, validNameB c = true) (hn : validNameB n = true) :
    goJoin (compsPath cs) n = compsPath (cs ++ [n]) := by
  have hvall : ∀ c ∈ cs ++ [n], validNameB c = true := by
    intro c hc
    rcases List.mem_append.mp hc with h | h
    · exact hv c h
    · rw [List.mem_singleton.mp h]; exact hn
  rw [goJoin, if_neg (compsPath_ne_empty cs hne hv)]
  have happ : compsPath (cs ++ [n]) = compsPath cs ++ "/" ++ n := by
    rw [compsPath_append cs [n] hne (by simp)]
    rfl
  rw [← happ]
  exact goClean_compsPath (cs ++ [n]) (by simp) hvall

/-- `goJoin` from the empty current path is the cleaned name itself. -/
theorem goJoin_empty_comps (n : String) (hn : validNameB n = true) :
    goJoin "" n = n := by
  have hne : n ≠ "" := by
    intro he
    have := (validName_parts n hn).1
    rw [he] at this
    exact this rfl
  rw [goJoin, if_pos rfl, if_neg hne]
  have := goClean_compsPath [n] (by simp) (by simpa using hn)
  simpa [compsPath] using this

/-- `goJoin` of a rooted component path and a valid name stays rooted. -/
theorem goJoin_rooted_compsPath (cs : List String) (n : String) (hne : cs ≠ [])
    (hv : ∀ c ∈ cs, validNameB c = true) (hn : validNameB n = true) :
    goJoin ("/" ++ compsPath cs) n = "/" ++ compsPath (cs ++ [n]) := by
  have hvall : ∀ c ∈ cs ++ [n], validNameB c = true := by
    intro c hc
    rcases List.mem_append.mp hc with h | h
    · exact hv c h
    · rw [List.mem_singleton.mp h]; exact hn
  have hsne : ("/" ++ compsPath cs) ≠ "" := by
    intro he
    have : ("/" ++ compsPath cs).toList = [] := by rw [he]; rfl
    cases this
  rw [goJoin, if_neg hsne]
  have hassoc : "/" ++ compsPath cs ++ "/" ++ n = "/" ++ compsPath (cs ++ [n]) := by
    rw [compsPath_append cs [n] hne (by simp)]
    simp [String.append_assoc, compsPath]
  rw [hassoc]
  exact goClean_rooted_compsPath (cs ++ [n]) (by simp) hvall

/-- `strings.TrimPrefix` with the empty prefix is the identity. -/
theorem goTrimPre_empty (s : String) : goTrimPre s "" = s := by
  simp [goTrimPre, List.isPrefixOf]

/-- Trimming the root components off a longer component path leaves a
rooted remainder: the leading separator survives. -/
theorem goTrimPre_comps (ds cs : List String) (hd : ds ≠ []) (hc : cs ≠ []) :
    goTrimPre (compsPath (ds ++ cs)) (compsPath ds) = "/" ++ compsPath cs := by
  rw [compsPath_append ds cs hd hc]
  have hto : (compsPath ds ++ "/" ++ compsPath cs).toList =
      (compsPath ds).toList ++ '/' :: (compsPath cs).toList := by
    show (compsPath ds ++ "/" ++ compsPath cs).data = _
    rw [String.data_append, String.data_append]
    simp [String.toList]
  have hpre : (compsPath ds).toList.isPrefixOf
      (compsPath ds ++ "/" ++ compsPath cs).toList = true := by
    rw [hto, List.isPrefixOf_iff_prefix]
    exact ⟨'/' :: (compsPath cs).toList, rfl⟩
  rw [goTrimPre, if_pos hpre, hto]
  have hdrop : ((compsPath ds).toList ++ '/' :: (compsPath cs).toList).drop
      (compsPath ds).toList.length = '/' :: (compsPath cs).toList :=
    List.drop_left _ _
  rw [hdrop]
  apply toList_inj
  rfl

/-! ## Well-formed trees, mirrors, and derived path facts -/

mutual

/-- A remote node whose names (recursively) are well-formed. -/
def validRemoteNodeB : RemoteNode → Bool
  | RemoteNode.file n _ _ => validNameB n
  | RemoteNode.dir n cs => validNameB n && validRemoteForestB cs

/-- A remote listing whose names (recursively) are well-formed. -/
def validRemoteForestB : List RemoteNode → Bool
  | [] => true
  | n :: rest => validRemoteNodeB n && validRemoteForestB rest

end

mutual

/-- A local node with well-formed names and no walk-error entries. -/
def validLocalNodeB : LocalNode → Bool
  | LocalNode.file n _ _ => validNameB n
  | LocalNode.dir n cs => validNameB n && validLocalForestB cs
  | LocalNode.errNode _ _ => false

/-- A local tree with well-formed names and no walk-error entries. -/
def validLocalForestB : List LocalNode → Bool
  | [] => true
  | n :: rest => validLocalNodeB n && validLocalForestB rest

end

mutual

/-- The remote node the first run's upload of one local node produces
(the store holds the uploaded content, hence the local size and
checksum). -/
def mirrorNode : LocalNode → List RemoteNode
  | LocalNode.file name size checksumRes =>
    [RemoteNode.file name size (checksumRes.getD "")]
  | LocalNode.dir name children => [RemoteNode.dir name (mirrorForest children)]
  | LocalNode.errNode _ _ => []

/-- The remote tree the first run's uploads produce from a local tree. -/
def mirrorForest : List LocalNode → List RemoteNode
  | [] => []
  | node :: rest => mirrorNode node ++ mirrorForest rest

end

/-- `relJoin` over component paths appends a component. -/
theorem relJoin_comps (rcs : List String) (n : String)
    (hv : ∀ c ∈ rcs, validNameB c = true) :
    relJoin (compsPath rcs) n = compsPath (rcs ++ [n]) := by
  cases hr : rcs with
  | nil => simp [relJoin, compsPath]
  | cons c t =>
    rw [← hr]
    have hne : rcs ≠ [] := by rw [hr]; simp
    rw [relJoin, if_neg (compsPath_ne_empty rcs hne hv),
      compsPath_append rcs [n] hne (by simp)]
    rfl

/-- A valid component path is never the bare separator. -/
theorem compsPath_ne_slash (cs : List String) (hne : cs ≠ [])
    (hv : ∀ c ∈ cs, validNameB c = true) : compsPath cs ≠ "/" := by
  obtain ⟨ch, t, hht, hch, _⟩ := compsPath_head_ne_slash cs hne hv
  intro he
  rw [he] at hht
  have : ch = '/' := by
    have h2 : ("/" : String).toList = ['/'] := rfl
    rw [h2] at hht
    exact (List.cons.injEq _ _ _ _ ▸ hht).1.symm ▸ rfl
  exact hch this

/-- The normalized sub-path the streamer computes when descending into a
directory is just the component path extended by the directory name. -/
theorem sub_comps (xs : List String) (name : String)
    (hv : ∀ c ∈ xs, validNameB c = true) (hn : validNameB name = true) :
    goBackslashToSlash (goJoin (compsPath xs) name) = compsPath (xs ++ [name]) := by
  have hvall : ∀ c ∈ xs ++ [name], validNameB c = true := by
    intro c hc
    rcases List.mem_append.mp hc with h | h
    · exact hv c h
    · rw [List.mem_singleton.mp h]; exact hn
  cases hx : xs with
  | nil =>
    show goBackslashToSlash (goJoin (compsPath []) name) = compsPath ([] ++ [name])
    rw [show compsPath [] = "" from rfl, goJoin_empty_comps name hn]
    exact goBackslashToSlash_id name (validName_parts name hn).2.2.1
  | cons c t =>
    rw [← hx]
    have hne : xs ≠ [] := by rw [hx]; simp
    rw [goJoin_compsPath xs name hne hv hn]
    exact goBackslashToSlash_id _ (no_backslash_compsPath (xs ++ [name]) hvall)

/-- A string of the form `"/" ++ s` begins with the separator. -/
theorem rooted_head (s : String) : ("/" ++ s).toList.head? = some '/' := rfl

/-- Streamed entries strictly below a non-empty remote root always carry a
path that begins with `/` (joint node/listing statement): the
`TrimPrefix`-based relativisation leaves the separator in place. -/
theorem streamFiles_below_root_rooted (failsAt : String → Bool) (ds : List String)
    (hds : ds ≠ []) (hdv : ∀ d ∈ ds, validNameB d = true) :
    (∀ (currentPath : String) (node : RemoteNode), ∀ cs : List String,
        cs ≠ [] → (∀ c ∈ cs, validNameB c = true) →
        currentPath = compsPath (ds ++ cs) → validRemoteNodeB node = true →
        ∀ e ∈ streamFilesNode failsAt (compsPath ds) currentPath node,
          e.path.toList.head? = some '/') ∧
    (∀ (currentPath : String) (nodes : List RemoteNode), ∀ cs : List String,
        cs ≠ [] → (∀ c ∈ cs, validNameB c = true) →
        currentPath = compsPath (ds ++ cs) → validRemoteForestB nodes = true →
        ∀ e ∈ streamFiles failsAt (compsPath ds) currentPath nodes,
          e.path.toList.head? = some '/') := by
  have hcat : ∀ (cs : List String), cs ≠ [] → (∀ c ∈ cs, validNameB c = true) →
      ds ++ cs ≠ [] ∧ (∀ c ∈ ds ++ cs, validNameB c = true) := by
    intro cs hcs hcv
    refine ⟨by simp [hds], ?_⟩
    intro c hc
    rcases List.mem_append.mp hc with h | h
    · exact hdv c h
    · exact hcv c h
  apply streamFilesNode.mutual_induct failsAt (compsPath ds)
  · -- directory whose listing fails: contributes nothing
    intro currentPath name children subP hf
    intro cs _ _ _ _ e he
    simp only [streamFilesNode, if_pos hf] at he
    cases he
  · -- directory whose listing succeeds: descend with one more component
    intro currentPath name children subP hf ih
    intro cs hcs hcv hcp hvn e he
    simp only [validRemoteNodeB, Bool.and_eq_true] at hvn
    obtain ⟨hcat1, hcat2⟩ := hcat cs hcs hcv
    have hsub : goBackslashToSlash (goJoin currentPath name) =
        compsPath (ds ++ (cs ++ [name])) := by
      rw [hcp, sub_comps (ds ++ cs) name hcat2 hvn.1, List.append_assoc]
    simp only [streamFilesNode, if_neg hf] at he
    refine ih (cs ++ [name]) (by simp) ?_ hsub hvn.2 e he
    intro c hc
    rcases List.mem_append.mp hc with h | h
    · exact hcv c h
    · rw [List.mem_singleton.mp h]; exact hvn.1
  · -- file below the root: TrimPrefix leaves a leading separator
    intro currentPath name size checksum
    intro cs hcs hcv hcp hvn e he
    simp only [validRemoteNodeB] at hvn
    obtain ⟨hcat1, hcat2⟩ := hcat cs hcs hcv
    have hc1 : currentPath ≠ "" := by
      rw [hcp]; exact compsPath_ne_empty _ hcat1 hcat2
    have hc2 : currentPath ≠ "/" := by
      rw [hcp]; exact compsPath_ne_slash _ hcat1 hcat2
    have hrel : goBackslashToSlash
        (goJoin (goTrimPre currentPath (compsPath ds)) name) =
        "/" ++ compsPath (cs ++ [name]) := by
      rw [hcp, goTrimPre_comps ds cs hds hcs,
        goJoin_rooted_compsPath cs name hcs hcv hvn]
      apply goBackslashToSlash_id
      intro hm
      have : ("/" ++ compsPath (cs ++ [name])).toList =
          '/' :: (compsPath (cs ++ [name])).toList := rfl
      rw [this] at hm
      rcases List.mem_cons.mp hm with h | h
      · cases h
      · refine no_backslash_compsPath (cs ++ [name]) ?_ h
        intro c hc
        rcases List.mem_append.mp hc with h2 | h2
        · exact hcv c h2
        · rw [List.mem_singleton.mp h2]; exact hvn
    simp only [streamFilesNode, if_pos (And.intro hc1 hc2)] at he
    rcases List.mem_singleton.mp he with rfl
    show (goBackslashToSlash
        (goJoin (goTrimPre currentPath (compsPath ds)) name)).toList.head? = some '/'
    rw [hrel]
    exact rooted_head _
  · -- empty listing
    intro currentPath cs _ _ _ _ e he
    cases he
  · -- listing cons
    intro currentPath node rest ih1 ih2
    intro cs hcs hcv hcp hvn e he
    simp only [validRemoteForestB, Bool.and_eq_true] at hvn
    simp only [streamFiles, List.mem_append] at he
    rcases he with h | h
    · exact ih1 cs hcs hcv hcp hvn.1 e h
    · exact ih2 cs hcs hcv hcp hvn.2 e h

/-- Local relative paths never begin with `/` (joint node/listing
statement): walk keys are plain component paths over valid names. -/
theorem walkEntries_keys_not_rooted :
    (∀ (dirPath relDir : String) (node : LocalNode), ∀ rcs : List String,
        (∀ c ∈ rcs, validNameB c = true) → relDir = compsPath rcs →
        validLocalNodeB node = true →
        ∀ k ∈ (walkEntriesNode dirPath relDir node).map Prod.fst,
          k.toList.head? ≠ some '/') ∧
    (∀ (dirPath relDir : String) (nodes : List LocalNode), ∀ rcs : List String,
        (∀ c ∈ rcs, validNameB c = true) → relDir = compsPath rcs →
        validLocalForestB nodes = true →
        ∀ k ∈ (walkEntries dirPath relDir nodes).map Prod.fst,
          k.toList.head? ≠ some '/') := by
  apply walkEntriesNode.mutual_induct
  · -- file
    intro dp rd name size checksumRes
    intro rcs hrv hrd hvn k hk
    simp only [validLocalNodeB] at hvn
    have hall : ∀ c ∈ rcs ++ [name], validNameB c = true := by
      intro c hc
      rcases List.mem_append.mp hc with h | h
      · exact hrv c h
      · rw [List.mem_singleton.mp h]; exact hvn
    have hkey : goBackslashToSlash (relJoin rd name) = compsPath (rcs ++ [name]) := by
      rw [hrd, relJoin_comps rcs name hrv]
      exact goBackslashToSlash_id _ (no_backslash_compsPath (rcs ++ [name]) hall)
    simp only [walkEntriesNode, List.map_cons, List.map_nil,
      List.mem_singleton] at hk
    rw [hk, hkey]
    obtain ⟨ch, t, hht, hch, _⟩ :=
      compsPath_head_ne_slash (rcs ++ [name]) (by simp) hall
    rw [hht]
    intro he
    exact hch (by simpa using he)
  · -- directory
    intro dp rd name children ih
    intro rcs hrv hrd hvn k hk
    simp only [validLocalNodeB, Bool.and_eq_true] at hvn
    have hall : ∀ c ∈ rcs ++ [name], validNameB c = true := by
      intro c hc
      rcases List.mem_append.mp hc with h | h
      · exact hrv c h
      · rw [List.mem_singleton.mp h]; exact hvn.1
    refine ih (rcs ++ [name]) hall ?_ hvn.2 k (by simpa [walkEntriesNode] using hk)
    rw [hrd, relJoin_comps rcs name hrv]
  · -- error node (excluded by validity)
    intro dp rd name msg
    intro rcs _ _ hvn
    simp [validLocalNodeB] at hvn
  · -- empty listing
    intro dp rd rcs _ _ _ k hk
    simp [walkEntries] at hk
  · -- listing cons
    intro dp rd node rest ih1 ih2
    intro rcs hrv hrd hvn k hk
    simp only [validLocalForestB, Bool.and_eq_true] at hvn
    simp only [walkEntries, List.map_append, List.mem_append] at hk
    rcases hk with h | h
    · exact ih1 rcs hrv hrd hvn.1 k h
    · exact ih2 rcs hrv hrd hvn.2 k h

/-- C10: with a non-empty remote root (a slash-separated sequence of
well-formed path components), every remote file strictly below a
subdirectory of that root is assigned a relative path that begins with
`/` (the `TrimPrefix` relativisation leaves the separator), while local
relative paths never begin with `/`; consequently such a remote entry
matches no local file and never causes a skip decision — the
classification step ignores it entirely. -/
theorem remote_subdir_paths_rooted (failsAt : String → Bool) (ds : List String)
    (hds : ds ≠ []) (hdv : ∀ d ∈ ds, validNameB d = true) :
    (∀ (name : String) (children : List RemoteNode),
      validRemoteNodeB (RemoteNode.dir name children) = true →
      ∀ e ∈ streamFilesNode failsAt (compsPath ds) (compsPath ds)
          (RemoteNode.dir name children),
        e.path.toList.head? = some '/') ∧
    (∀ (localDir : String) (localTree : List LocalNode),
      validLocalForestB localTree = true →
      ∀ k ∈ (walkEntries localDir "" localTree).map Prod.fst,
        k.toList.head? ≠ some '/') ∧
    (∀ (remoteDir2 : String) (acc : SkipAcc) (e : RemoteFileInfo),
      e.path.toList.head? = some '/' →
      (∀ k ∈ acc.states.map Prod.fst, k.toList.head? ≠ some '/') →
      skipCheckerStep remoteDir2 acc e = acc) := by
  refine ⟨?_, ?_, ?_⟩
  · intro name children hvn e he
    simp only [validRemoteNodeB, Bool.and_eq_true] at hvn
    by_cases hf : failsAt (goBackslashToSlash (goJoin (compsPath ds) name))
    · simp only [streamFilesNode, if_pos hf] at he
      cases he
    · simp only [streamFilesNode, if_neg hf] at he
      exact (streamFiles_below_root_rooted failsAt ds hds hdv).2
        (goBackslashToSlash (goJoin (compsPath ds) name)) children [name]
        (by simp) (by intro c hc; rw [List.mem_singleton.mp hc]; exact hvn.1)
        (sub_comps ds name hdv hvn.1) hvn.2 e he
  · intro localDir localTree hv k hk
    exact walkEntries_keys_not_rooted.2 localDir "" localTree []
      (by intro c hc; cases hc) rfl hv k hk
  · intro remoteDir2 acc e hroot hkeys
    apply skipCheckerStep_no_local
    apply lookup_eq_none_of_not_mem
    intro hmem
    exact hkeys e.path hmem hroot

/-- Witness for C10: remote root `assets`, file `style.css` inside
subdirectory `css` streams as `/css/style.css`, which matches no local
key and leaves the checker state unchanged. -/
theorem remote_subdir_paths_rooted_witness :
    (∀ e ∈ streamFilesNode (fun _ => false) "assets" "assets"
        (RemoteNode.dir "css" [RemoteNode.file "style.css" 10 "AB"]),
      e.path.toList.head? = some '/') ∧
    (streamFilesNode (fun _ => false) "assets" "assets"
        (RemoteNode.dir "css" [RemoteNode.file "style.css" 10 "AB"])).map
        (fun e => e.path) = ["/css/style.css"] ∧
    skipCheckerStep "assets"
      ⟨[("css/style.css",
          { file := { path := "site/css/style.css", size := 10, checksum := "AB",
                      relPath := "css/style.css" },
            checked := false, skip := false, reason := "" })], [], []⟩
      { name := "style.css", isDirectory := false, size := 10, lastModified := "",
        checksum := "AB", path := "/css/style.css" } =
      ⟨[("css/style.css",
          { file := { path := "site/css/style.css", size := 10, checksum := "AB",
                      relPath := "css/style.css" },
            checked := false, skip := false, reason := "" })], [], []⟩ := by
  refine ⟨?_, by decide, ?_⟩
  · exact (remote_subdir_paths_rooted (fun _ => false) ["assets"] (by decide)
      (by decide)).1 "css" [RemoteNode.file "style.css" 10 "AB"] (by decide)
  · exact (remote_subdir_paths_rooted (fun _ => false) ["assets"] (by decide)
      (by decide)).2.2 "assets" _ _ (by decide) (by decide)

/-- Counterexample to C3 as stated: local tree `css/style.css`, remote
root `assets`.  The first run against an empty remote uploads the file;
the second run, against the remote tree holding exactly the uploaded
content with its checksum, uploads it again — no record is skipped, so
the second run does not have zero uploads. -/
theorem second_run_not_idempotent_counterexample :
    (uploadDirectoryOptimized (fun _ => none) (fun _ => false)
      ⟨fun _ => Except.ok "data", fun _ => FetchResult.response 201 "201 Created" ""⟩
      ⟨"zone", "pw"⟩ "site" "assets"
      [LocalNode.dir "css" [LocalNode.file "style.css" 10 (some "AB")]] [] =
      [{ path := "site/css/style.css", success := true, error := none,
         skipped := false, reason := "" }]) ∧
    (uploadDirectoryOptimized (fun _ => none) (fun _ => false)
      ⟨fun _ => Except.ok "data", fun _ => FetchResult.response 201 "201 Created" ""⟩
      ⟨"zone", "pw"⟩ "site" "assets"
      [LocalNode.dir "css" [LocalNode.file "style.css" 10 (some "AB")]]
      (mirrorForest [LocalNode.dir "css" [LocalNode.file "style.css" 10 (some "AB")]]) =
      [{ path := "site/css/style.css", success := true, error := none,
         skipped := false, reason := "" }]) ∧
    ¬(∀ s ∈ uploadDirectoryOptimized (fun _ => none) (fun _ => false)
        ⟨fun _ => Except.ok "data", fun _ => FetchResult.response 201 "201 Created" ""⟩
        ⟨"zone", "pw"⟩ "site" "assets"
        [LocalNode.dir "css" [LocalNode.file "style.css" 10 (some "AB")]]
        (mirrorForest [LocalNode.dir "css" [LocalNode.file "style.css" 10 (some "AB")]]),
      s.skipped = true ∧ s.reason = "checksum match") := by
  refine ⟨by decide, by decide, by decide⟩

mutual

/-- A local node whose subtree contains no walk-error entry. -/
def errFreeNodeB : LocalNode → Bool
  | LocalNode.file _ _ _ => true
  | LocalNode.dir _ children => errFreeForestB children
  | LocalNode.errNode _ _ => false

/-- A local tree with no walk-error entries. -/
def errFreeForestB : List LocalNode → Bool
  | [] => true
  | node :: rest => errFreeNodeB node && errFreeForestB rest

end

/-- A walk with no callback errors and no `Rel` failures always succeeds:
in particular checksum failures (`checksumRes = none`) never abort it
(joint statement). -/
theorem walkLocal_success_all (localDir : String) :
    (∀ (node : LocalNode) (dirPath relDir : String)
        (m : List (String × LocalFileInfo)), errFreeNodeB node = true →
      ∃ m2, walkLocalNode (fun _ => none) localDir dirPath relDir node m =
        Except.ok m2) ∧
    (∀ (nodes : List LocalNode) (dirPath relDir : String)
        (m : List (String × LocalFileInfo)), errFreeForestB nodes = true →
      ∃ m2, walkLocal (fun _ => none) localDir dirPath relDir nodes m =
        Except.ok m2) := by
  have H := errFreeNodeB.mutual_induct
    (fun node => ∀ (dirPath relDir : String) (m : List (String × LocalFileInfo)),
      errFreeNodeB node = true →
      ∃ m2, walkLocalNode (fun _ => none) localDir dirPath relDir node m =
        Except.ok m2)
    (fun nodes => ∀ (dirPath relDir : String) (m : List (String × LocalFileInfo)),
      errFreeForestB nodes = true →
      ∃ m2, walkLocal (fun _ => none) localDir dirPath relDir nodes m =
        Except.ok m2)
    (by
      intro name size checksumRes dp rd m _
      exact ⟨_, rfl⟩)
    (by
      intro name children ih dp rd m hfree
      simp only [errFreeNodeB] at hfree
      obtain ⟨m2, hm2⟩ := ih (goJoin dp name) (relJoin rd name) m hfree
      exact ⟨m2, hm2⟩)
    (by
      intro name msg dp rd m hfree
      simp [errFreeNodeB] at hfree)
    (by
      intro dp rd m _
      exact ⟨m, rfl⟩)
    (by
      intro node rest ih1 ih2 dp rd m hfree
      simp only [errFreeForestB, Bool.and_eq_true] at hfree
      obtain ⟨mmid, hmid⟩ := ih1 dp rd m hfree.1
      obtain ⟨m2, hm2⟩ := ih2 dp rd mmid hfree.2
      refine ⟨m2, ?_⟩
      rw [walkLocal.eq_def]
      dsimp only
      rw [hmid]
      exact hm2)
  exact H

/-- Valid trees contain no walk-error entries (joint statement). -/
theorem valid_imp_errFree :
    (∀ node : LocalNode, validLocalNodeB node = true → errFreeNodeB node = true) ∧
    (∀ nodes : List LocalNode, validLocalForestB nodes = true →
      errFreeForestB nodes = true) := by
  have H := errFreeNodeB.mutual_induct
    (fun node => validLocalNodeB node = true → errFreeNodeB node = true)
    (fun nodes => validLocalForestB nodes = true → errFreeForestB nodes = true)
    (by intro name size checksumRes _; rfl)
    (by
      intro name children ih hv
      simp only [validLocalNodeB, Bool.and_eq_true] at hv
      simpa [errFreeNodeB] using ih hv.2)
    (by intro name msg hv; simp [validLocalNodeB] at hv)
    (by intro _; rfl)
    (by
      intro node rest ih1 ih2 hv
      simp only [validLocalForestB, Bool.and_eq_true] at hv
      simp [errFreeForestB, ih1 hv.1, ih2 hv.2])
  exact H

/-- With the empty remote root, streaming the mirror of a valid local
tree produces entries whose (path, size, checksum) triples are exactly
the (relative path, size, checksum) triples the local walk discovers, in
the same order (joint statement). -/
theorem streamFiles_mirror_spec :
    (∀ (node : LocalNode) (dirPath : String) (rcs : List String),
      (∀ c ∈ rcs, validNameB c = true) → validLocalNodeB node = true →
      (streamFiles (fun _ => false) "" (compsPath rcs) (mirrorNode node)).map
          (fun e => (e.path, e.size, e.checksum)) =
        (walkEntriesNode dirPath (compsPath rcs) node).map
          (fun p => (p.1, p.2.size, p.2.checksum))) ∧
    (∀ (nodes : List LocalNode) (dirPath : String) (rcs : List String),
      (∀ c ∈ rcs, validNameB c = true) → validLocalForestB nodes = true →
      (streamFiles (fun _ => false) "" (compsPath rcs) (mirrorForest nodes)).map
          (fun e => (e.path, e.size, e.checksum)) =
        (walkEntries dirPath (compsPath rcs) nodes).map
          (fun p => (p.1, p.2.size, p.2.checksum))) := by
  have H := mirrorNode.mutual_induct
    (fun node => ∀ (dirPath : String) (rcs : List String),
      (∀ c ∈ rcs, validNameB c = true) → validLocalNodeB node = true →
      (streamFiles (fun _ => false) "" (compsPath rcs) (mirrorNode node)).map
          (fun e => (e.path, e.size, e.checksum)) =
        (walkEntriesNode dirPath (compsPath rcs) node).map
          (fun p => (p.1, p.2.size, p.2.checksum)))
    (fun nodes => ∀ (dirPath : String) (rcs : List String),
      (∀ c ∈ rcs, validNameB c = true) → validLocalForestB nodes = true →
      (streamFiles (fun _ => false) "" (compsPath rcs) (mirrorForest nodes)).map
          (fun e => (e.path, e.size, e.checksum)) =
        (walkEntries dirPath (compsPath rcs) nodes).map
          (fun p => (p.1, p.2.size, p.2.checksum)))
    (by
      -- file node
      intro name size checksumRes dp rcs hrv hvn
      simp only [validLocalNodeB] at hvn
      have hall : ∀ c ∈ rcs ++ [name], validNameB c = true := by
        intro c hc
        rcases List.mem_append.mp hc with h | h
        · exact hrv c h
        · rw [List.mem_singleton.mp h]; exact hvn
      have hkey : goBackslashToSlash (relJoin (compsPath rcs) name) =
          compsPath (rcs ++ [name]) := by
        rw [relJoin_comps rcs name hrv]
        exact goBackslashToSlash_id _ (no_backslash_compsPath (rcs ++ [name]) hall)
      have hpath :
          (if compsPath rcs ≠ "" ∧ compsPath rcs ≠ "/" then
            goBackslashToSlash
              (goJoin (goTrimPre (compsPath rcs) "") name)
          else name) = compsPath (rcs ++ [name]) := by
        cases hr : rcs with
        | nil =>
          rw [if_neg (by simp [compsPath])]
          have : compsPath ([] ++ [name]) = name := rfl
          rw [this]
        | cons c t =>
          rw [← hr]
          have hne : rcs ≠ [] := by rw [hr]; simp
          rw [if_pos ⟨compsPath_ne_empty rcs hne hrv,
            compsPath_ne_slash rcs hne hrv⟩, goTrimPre_empty]
          exact sub_comps rcs name hrv hvn
      simp only [mirrorNode, walkEntriesNode, streamFiles, streamFilesNode,
        List.map_cons, List.map_nil, List.append_nil, hkey]
      rw [hpath])
    (by
      -- directory node
      intro name children ih dp rcs hrv hvn
      simp only [validLocalNodeB, Bool.and_eq_true] at hvn
      have hall : ∀ c ∈ rcs ++ [name], validNameB c = true := by
        intro c hc
        rcases List.mem_append.mp hc with h | h
        · exact hrv c h
        · rw [List.mem_singleton.mp h]; exact hvn.1
      have hsub : goBackslashToSlash (goJoin (compsPath rcs) name) =
          compsPath (rcs ++ [name]) := sub_comps rcs name hrv hvn.1
      have hrel : relJoin (compsPath rcs) name = compsPath (rcs ++ [name]) :=
        relJoin_comps rcs name hrv
      simp only [mirrorNode, walkEntriesNode, streamFiles, streamFilesNode,
        Bool.false_eq_true, if_neg, ite_false, List.append_nil, hsub, hrel]
      exact ih (goJoin dp name) (rcs ++ [name]) hall hvn.2)
    (by
      -- error node: excluded by validity
      intro name msg dp rcs _ hvn
      simp [validLocalNodeB] at hvn)
    (by
      -- empty listing
      intro dp rcs _ _
      simp [mirrorForest, streamFiles, walkEntries])
    (by
      -- listing cons
      intro node rest ih1 ih2 dp rcs hrv hvn
      simp only [validLocalForestB, Bool.and_eq_true] at hvn
      simp only [mirrorForest, walkEntries, streamFiles_append, List.map_append]
      rw [ih1 dp rcs hrv hvn.1, ih2 dp rcs hrv hvn.2])
  exact H

/-- `stSet` really updates the binding the lookup found. -/
theorem lookup_stSet_self (m : List (String × LocalFileState)) (k : String)
    (st v : LocalFileState) (h : m.lookup k = some st) :
    (stSet m k v).lookup k = some v := by
  induction m with
  | nil => simp [List.lookup] at h
  | cons a rest ih =>
    rw [List.lookup_cons] at h
    cases hk : (k == a.1) with
    | true =>
      have he : a.1 = k := (eq_of_beq hk).symm
      simp only [stSet, List.map_cons, if_pos he]
      rw [List.lookup_cons]
      simp
    | false =>
      rw [hk] at h
      have hne : ¬a.1 = k := fun he2 => by simp [he2] at hk
      simp only [stSet, List.map_cons, if_neg hne]
      rw [List.lookup_cons, hk]
      exact ih h

/-- Looking up in the freshly initialised state map recovers the walk
entry. -/
theorem lookup_states_map (m : List (String × LocalFileInfo)) (k : String) :
    ((m.map (fun p => (p.1, LocalFileState.mk p.2 false false ""))).lookup k).map
        (fun st => st.file) = m.lookup k := by
  induction m with
  | nil => rfl
  | cons a rest ih =>
    simp only [List.map_cons]
    rw [List.lookup_cons, List.lookup_cons]
    cases hk : (k == a.1) <;> simp [ih]

/-- With distinct keys, membership determines the lookup. -/
theorem lookup_of_mem_nodup {α : Type} (m : List (String × α)) (p : String × α)
    (hnd : (m.map Prod.fst).Nodup) (hp : p ∈ m) : m.lookup p.1 = some p.2 := by
  induction m with
  | nil => cases hp
  | cons a rest ih =>
    rcases List.mem_cons.mp hp with he | hmem
    · rw [he, List.lookup_cons]
      simp
    · have hne : (p.1 == a.1) = false := by
        apply beq_false_of_ne
        intro he2
        exact (List.nodup_cons.mp hnd).1
          (he2 ▸ List.mem_map_of_mem Prod.fst hmem)
      rw [List.lookup_cons, hne]
      exact ih (List.nodup_cons.mp hnd).2 hmem

/-- Length form of the flow conservation through the skip checker. -/
theorem skipChecker_length (localStates : List (String × LocalFileState))
    (remoteStream : List RemoteFileInfo) (remoteDir : String)
    (hnd : (localStates.map Prod.fst).Nodup)
    (hnodup : (remoteStream.map (fun r => r.path)).Nodup)
    (hinit : ∀ p ∈ localStates, p.2.checked = false ∧ p.2.skip = false) :
    (skipChecker localStates remoteStream remoteDir).1.length +
      (skipChecker localStates remoteStream remoteDir).2.length =
      localStates.length := by
  have h := skipChecker_conservation localStates remoteStream remoteDir hnd hnodup hinit
  have h2 := congrArg Multiset.card h
  simpa using h2

/-- When every streamed remote entry matches a local state of the same
size and the same non-empty checksum, the checker loop emits only
`checksum match` skip records (one per entry) and no upload task, and the
per-key file contents of the state map are untouched. -/
theorem skipCheckerLoop_all_match (remoteDir : String)
    (F : String → Option LocalFileInfo) :
    ∀ (rs : List RemoteFileInfo) (acc : SkipAcc),
    (∀ k, (acc.states.lookup k).map (fun st => st.file) = F k) →
    (∀ r ∈ rs, ∃ f, F r.path = some f ∧ f.size = r.size ∧
      f.checksum = r.checksum ∧ r.checksum ≠ "") →
    (skipCheckerLoop remoteDir acc rs).tasks = acc.tasks ∧
    (skipCheckerLoop remoteDir acc rs).results.length =
      acc.results.length + rs.length ∧
    (∀ s ∈ (skipCheckerLoop remoteDir acc rs).results, s ∈ acc.results ∨
      (s.skipped = true ∧ s.reason = "checksum match" ∧ s.success = true)) ∧
    (∀ k, ((skipCheckerLoop remoteDir acc rs).states.lookup k).map
      (fun st => st.file) = F k) := by
  intro rs
  induction rs with
  | nil =>
    intro acc hF _
    exact ⟨rfl, rfl, fun s hs => Or.inl hs, hF⟩
  | cons r rest ih =>
    intro acc hF hmatch
    obtain ⟨f, hf, hsize, hchk, hchkne⟩ := hmatch r (List.mem_cons_self _ _)
    have hlook0 := hF r.path
    rw [hf] at hlook0
    obtain ⟨st, hst, hstf⟩ : ∃ st, acc.states.lookup r.path = some st ∧
        st.file = f := by
      cases hl : acc.states.lookup r.path with
      | none => rw [hl] at hlook0; cases hlook0
      | some st =>
        rw [hl] at hlook0
        exact ⟨st, rfl, by simpa using hlook0⟩
    have hskip : shouldSkipUpload st.file r = (true, "checksum match") := by
      rw [hstf]
      unfold shouldSkipUpload
      rw [if_neg (by simp [hsize]), if_pos ⟨hchkne, by rw [hchk]; exact hchkne⟩,
        if_pos hchk]
    have hstep : skipCheckerStep remoteDir acc r =
        { states := stSet acc.states r.path
            { file := st.file, checked := true, skip := true,
              reason := "checksum match" },
          results := acc.results ++
            [{ path := st.file.path, success := true, error := none,
               skipped := true, reason := "checksum match" }],
          tasks := acc.tasks } := by
      simp [skipCheckerStep, hst, hskip]
    have hF2 : ∀ k, ((skipCheckerStep remoteDir acc r).states.lookup k).map
        (fun st2 => st2.file) = F k := by
      intro k
      by_cases hk : k = r.path
      · rw [hstep]
        subst hk
        rw [lookup_stSet_self acc.states r.path st _ hst]
        simp [hstf, hf]
      · rw [hstep]
        rw [lookup_stSet_ne acc.states r.path k _ hk]
        exact hF k
    obtain ⟨ht, hlen, hres, hFf⟩ := ih (skipCheckerStep remoteDir acc r) hF2
      (fun r2 hr2 => hmatch r2 (List.mem_cons_of_mem _ hr2))
    refine ⟨?_, ?_, ?_, hFf⟩
    · rw [skipCheckerLoop, ht, hstep]
    · rw [skipCheckerLoop, hlen, hstep]
      simp [Nat.add_assoc, Nat.add_comm 1 rest.length]
    · intro s hs
      rw [skipCheckerLoop] at hs
      rcases hres s hs with hin | hgood
      · rw [hstep] at hin
        simp only [List.mem_append, List.mem_singleton] at hin
        rcases hin with h1 | h2
        · exact Or.inl h1
        · exact Or.inr (by rw [h2]; exact ⟨rfl, rfl, rfl⟩)
      · exact Or.inr hgood

/-- C3 (amended): with the remote root `""` — the root the CLI always
passes — running synchronization against the remote tree populated by the
first run of an unchanged, well-formed local tree (every file readable,
checksums present) yields zero uploads: every record of the report is a
skip with reason `checksum match`, and the report is complete. -/
theorem second_run_zero_uploads (env : NetEnv) (zone : StorageZone)
    (localDir : String) (localTree : List LocalNode)
    (hvalid : validLocalForestB localTree = true)
    (hkeys : ((walkEntries localDir "" localTree).map Prod.fst).Nodup)
    (hchk : ∀ p ∈ walkEntries localDir "" localTree, p.2.checksum ≠ "") :
    (∀ s ∈ uploadDirectoryOptimized (fun _ => none) (fun _ => false) env zone
        localDir "" localTree (mirrorForest localTree),
      s.skipped = true ∧ s.reason = "checksum match" ∧ s.success = true) ∧
    (uploadDirectoryOptimized (fun _ => none) (fun _ => false) env zone localDir ""
        localTree (mirrorForest localTree)).length = fileCount localTree := by
  obtain ⟨m, hok⟩ := (walkLocal_success_all localDir).2 localTree localDir "" []
    (valid_imp_errFree.2 localTree hvalid)
  have hok2 : buildLocalFileMap (fun _ => none) localDir localTree = Except.ok m :=
    hok
  have hm : m = walkEntries localDir "" localTree := by
    have := walkLocal_spec (fun _ => none) localDir localDir "" localTree [] m hok
      (by simpa using hkeys)
    simpa using this
  subst hm
  set entries := walkEntries localDir "" localTree with hentries
  set localStates := entries.map (fun p =>
    (p.1, { file := p.2, checked := false, skip := false, reason := "" :
      LocalFileState })) with hlocalStates
  set stream := remoteFileStreamer (fun _ => false) "" (mirrorForest localTree)
    with hstreamdef
  have hstream_eq : stream = streamFiles (fun _ => false) "" "" (mirrorForest localTree) := by
    simp [hstreamdef, remoteFileStreamer]
  have hproj : stream.map (fun e => (e.path, e.size, e.checksum)) =
      entries.map (fun p => (p.1, p.2.size, p.2.checksum)) := by
    rw [hstream_eq]
    exact streamFiles_mirror_spec.2 localTree localDir [] (by intro c hc; cases hc)
      hvalid
  have hpaths : stream.map (fun e => e.path) = entries.map Prod.fst := by
    have := congrArg (List.map (fun t : String × Int × String => t.1)) hproj
    simpa [List.map_map, Function.comp] using this
  have hlen_stream : stream.length = entries.length := by
    have := congrArg List.length hproj
    simpa using this
  have hstream_nodup : (stream.map (fun r => r.path)).Nodup := by
    rw [hpaths]; exact hkeys
  have hnd_states : (localStates.map Prod.fst).Nodup := by
    have : localStates.map Prod.fst = entries.map Prod.fst := by
      simp [hlocalStates]
    rw [this]; exact hkeys
  have hinit : ∀ p ∈ localStates, p.2.checked = false ∧ p.2.skip = false := by
    intro p hp
    simp only [hlocalStates, List.mem_map] at hp
    obtain ⟨q, _, hq⟩ := hp
    rw [← hq]
    exact ⟨rfl, rfl⟩
  have hF : ∀ k, (localStates.lookup k).map (fun st => st.file) =
      entries.lookup k := by
    intro k
    rw [hlocalStates]
    exact lookup_states_map entries k
  have hmatch : ∀ r ∈ stream, ∃ f, entries.lookup r.path = some f ∧
      f.size = r.size ∧ f.checksum = r.checksum ∧ r.checksum ≠ "" := by
    intro r hr
    have hmem : (r.path, r.size, r.checksum) ∈
        entries.map (fun p => (p.1, p.2.size, p.2.checksum)) := by
      rw [← hproj]
      exact List.mem_map_of_mem _ hr
    obtain ⟨p, hp, hpe⟩ := List.mem_map.mp hmem
    have h1 : p.1 = r.path := congrArg Prod.fst hpe
    have h2 : p.2.size = r.size := congrArg (fun t : String × Int × String => t.2.1) hpe
    have h3 : p.2.checksum = r.checksum :=
      congrArg (fun t : String × Int × String => t.2.2) hpe
    refine ⟨p.2, ?_, h2, h3, ?_⟩
    · rw [← h1]
      exact lookup_of_mem_nodup entries p hkeys hp
    · rw [← h3]
      exact hchk p hp
  obtain ⟨htasks, hreslen, hgood, _⟩ :=
    skipCheckerLoop_all_match "" (fun k => entries.lookup k) stream
      ⟨localStates, [], []⟩ hF hmatch
  have htotal := skipChecker_length localStates stream "" hnd_states hstream_nodup hinit
  have hsc1 : (skipChecker localStates stream "").1 =
      (skipCheckerLoop "" ⟨localStates, [], []⟩ stream).results := rfl
  have hsc2 : (skipChecker localStates stream "").2 =
      (skipCheckerLoop "" ⟨localStates, [], []⟩ stream).tasks ++
        residualSweep "" (skipCheckerLoop "" ⟨localStates, [], []⟩ stream).states := rfl
  have hlen1 : (skipChecker localStates stream "").1.length = entries.length := by
    rw [hsc1, hreslen]
    simpa using hlen_stream
  have hlocallen : localStates.length = entries.length := by
    simp [hlocalStates]
  have hlen2 : (skipChecker localStates stream "").2.length = 0 := by
    omega
  have htasks_nil : (skipChecker localStates stream "").2 = [] :=
    List.length_eq_zero.mp hlen2
  have hrun : uploadDirectoryOptimized (fun _ => none) (fun _ => false) env zone
      localDir "" localTree (mirrorForest localTree) =
      (skipChecker localStates stream "").1 ++
        uploader env zone (skipChecker localStates stream "").2 := by
    simp only [uploadDirectoryOptimized, hok2]
  rw [hrun, htasks_nil]
  have huploader : uploader env zone [] = [] := rfl
  rw [huploader, List.append_nil]
  constructor
  · intro s hs
    rw [hsc1] at hs
    rcases hgood s hs with h | h
    · cases h
    · exact h
  · rw [hlen1, hentries]
    exact walkEntries_length localDir "" localTree

/-- Witness for the amended C3 at a concrete two-file tree with a
subdirectory: the second run skips everything with `checksum match`. -/
theorem second_run_zero_uploads_witness :
    (∀ s ∈ uploadDirectoryOptimized (fun _ => none) (fun _ => false)
        ⟨fun _ => Except.ok "data", fun _ => FetchResult.response 201 "201 Created" ""⟩
        ⟨"zone", "pw"⟩ "site" ""
        [LocalNode.dir "css" [LocalNode.file "style.css" 10 (some "AB")],
         LocalNode.file "index.html" 5 (some "CD")]
        (mirrorForest
          [LocalNode.dir "css" [LocalNode.file "style.css" 10 (some "AB")],
           LocalNode.file "index.html" 5 (some "CD")]),
      s.skipped = true ∧ s.reason = "checksum match" ∧ s.success = true) ∧
    (uploadDirectoryOptimized (fun _ => none) (fun _ => false)
        ⟨fun _ => Except.ok "data", fun _ => FetchResult.response 201 "201 Created" ""⟩
        ⟨"zone", "pw"⟩ "site" ""
        [LocalNode.dir "css" [LocalNode.file "style.css" 10 (some "AB")],
         LocalNode.file "index.html" 5 (some "CD")]
        (mirrorForest
          [LocalNode.dir "css" [LocalNode.file "style.css" 10 (some "AB")],
           LocalNode.file "index.html" 5 (some "CD")])).length =
      fileCount [LocalNode.dir "css" [LocalNode.file "style.css" 10 (some "AB")],
        LocalNode.file "index.html" 5 (some "CD")] :=
  second_run_zero_uploads
    ⟨fun _ => Except.ok "data", fun _ => FetchResult.response 201 "201 Created" ""⟩
    ⟨"zone", "pw"⟩ "site"
    [LocalNode.dir "css" [LocalNode.file "style.css" 10 (some "AB")],
     LocalNode.file "index.html" 5 (some "CD")]
    (by decide) (by decide) (by decide)

/-- Counterexample to C4 as stated: the local root itself is walkable
(its listing is delivered and its first file is processed), but a per-file
walk error on the second entry aborts the whole run with the single
root-path failure record — the run does not continue, although the claim
says only an unwalkable root may abort it. -/
theorem per_file_walk_error_aborts_counterexample :
    uploadDirectoryOptimized (fun _ => none) (fun _ => false)
      ⟨fun _ => Except.ok "data", fun _ => FetchResult.response 201 "201 Created" ""⟩
      ⟨"zone", "pw"⟩ "site" ""
      [LocalNode.file "a.txt" 3 (some "AA"),
       LocalNode.errNode "bad" "permission denied"] [] =
      [{ path := "site", success := false,
         error := some "failed to build local file list: permission denied",
         skipped := false, reason := "" }] := by
  decide

/-- C4 (amended): checksum computation failure is recoverable — a walk
over a tree free of walk errors always succeeds, and a file whose
checksum computation failed is stored with the empty checksum, so it
still receives its one outcome; but any per-file walk callback error (and
likewise a `filepath.Rel` failure, both of which make the walk return an
error) aborts the run, producing the single failure outcome for the root
path.  Failing fast is therefore not limited to an unwalkable root. -/
theorem walk_error_taxonomy (localDir : String) :
    (∀ localTree : List LocalNode, errFreeForestB localTree = true →
      ∃ m, buildLocalFileMap (fun _ => none) localDir localTree = Except.ok m) ∧
    (∀ (dirPath relDir name : String) (size : Int)
        (m : List (String × LocalFileInfo)),
      walkLocalNode (fun _ => none) localDir dirPath relDir
          (LocalNode.file name size none) m =
        Except.ok (goMapSet m (goBackslashToSlash (relJoin relDir name))
          { path := goJoin dirPath name, size := size, checksum := "",
            relPath := goBackslashToSlash (relJoin relDir name) })) ∧
    (∀ (relErr : String → Option String) (failsAt : String → Bool) (env : NetEnv)
        (zone : StorageZone) (remoteDir : String) (localTree : List LocalNode)
        (remoteTree : List RemoteNode) (e : String),
      buildLocalFileMap relErr localDir localTree = Except.error e →
      uploadDirectoryOptimized relErr failsAt env zone localDir remoteDir localTree
          remoteTree =
        [{ path := localDir, success := false,
           error := some ("failed to build local file list: " ++ e),
           skipped := false, reason := "" }]) := by
  refine ⟨?_, ?_, ?_⟩
  · intro localTree hfree
    exact (walkLocal_success_all localDir).2 localTree localDir "" [] hfree
  · intro dirPath relDir name size m
    rfl
  · intro relErr failsAt env zone remoteDir localTree remoteTree e herr
    simp only [uploadDirectoryOptimized, herr]

/-- Witness for the amended C4: a checksum failure (file with unreadable
content) does not abort the walk, and a tree with a per-file walk error
aborts the run with the single root record. -/
theorem walk_error_taxonomy_witness :
    (∃ m, buildLocalFileMap (fun _ => none) "site"
      [LocalNode.file "a.txt" 3 none] = Except.ok m) ∧
    uploadDirectoryOptimized (fun _ => none) (fun _ => false)
      ⟨fun _ => Except.ok "data", fun _ => FetchResult.response 201 "201 Created" ""⟩
      ⟨"zone", "pw"⟩ "site" ""
      [LocalNode.errNode "bad" "i/o error"] [] =
      [{ path := "site", success := false,
         error := some ("failed to build local file list: " ++ "i/o error"),
         skipped := false, reason := "" }] :=
  ⟨(walk_error_taxonomy "site").1 [LocalNode.file "a.txt" 3 none] (by decide),
   (walk_error_taxonomy "site").2.2 (fun _ => none) (fun _ => false)
     ⟨fun _ => Except.ok "data", fun _ => FetchResult.response 201 "201 Created" ""⟩
     ⟨"zone", "pw"⟩ "" [LocalNode.errNode "bad" "i/o error"] [] "i/o error" (by rfl)⟩

/-! ## The concurrent pipeline (C5)

An operational model of the goroutine/channel pipeline of
`uploadDirectoryOptimized`: the remote streamer, the skip checker, the
eight upload workers and the single collector run as concurrent processes
communicating over the three buffered channels `remoteFiles` (capacity
100), `uploadTasks` (capacity 10) and `results` (capacity 100).  A channel
is a list (its buffered contents, sender end at the right) plus a closed
flag; a blocked send is a control state of the sending process.  The step
relation `Step` has one constructor per observable action of any process,
so its traces are exactly the interleavings of the pipeline (context
cancellation, which only makes processes exit early, is not modelled). -/

/-- The outcome record a worker sends for one upload task (the body of
`uploader`'s loop). -/
def uploadOutcome (env : NetEnv) (zone : StorageZone) (task : FileUploadTask) :
    FileUploadStatus :=
  let res := uploadFileToStorage (env.readFileRes task.localFile.path)
    (env.putResp (uploadUrl zone task.remotePath)) task.localFile.path
  { path := task.localFile.path,
    success := match res with | Except.ok _ => true | Except.error _ => false,
    error := match res with | Except.ok _ => none | Except.error e => some e,
    skipped := false, reason := "" }

/-- The sequential upload stage maps `uploadOutcome` over the tasks. -/
theorem uploader_eq_map (env : NetEnv) (zone : StorageZone)
    (tasks : List FileUploadTask) :
    uploader env zone tasks = tasks.map (uploadOutcome env zone) := rfl

/-- Control state of the `skipChecker` goroutine: receiving from
`remoteFiles` (`running`), blocked sending a skip record on `results`
(`sendingResult`), blocked sending a task on `uploadTasks`
(`sendingTask`), sending the residual-sweep tasks (`sweeping`), or
returned, its deferred `close(uploadTasks)` executed (`finished`). -/
inductive CheckerCtl where
  | running (states : List (String × LocalFileState))
  | sendingResult (states : List (String × LocalFileState)) (rec : FileUploadStatus)
  | sendingTask (states : List (String × LocalFileState)) (task : FileUploadTask)
  | sweeping (tasks : List FileUploadTask)
  | finished
  deriving DecidableEq, Repr

/-- One step of `skipChecker`'s receive loop on its state map: the updated
map and the message it must now send, if any (`Sum.inl` a skip record for
`results`, `Sum.inr` a task for `uploadTasks`). -/
def checkEmit (remoteDir : String) (states : List (String × LocalFileState))
    (remoteFile : RemoteFileInfo) :
    List (String × LocalFileState) × Option (FileUploadStatus ⊕ FileUploadTask) :=
  match states.lookup remoteFile.path with
  | none =>
    -- Remote file doesn't exist locally - ignore it
    (states, none)
  | some localState =>
    let checkedState := { localState with checked := true }
    let skipReason := shouldSkipUpload localState.file remoteFile
    if skipReason.1 then
      (stSet states remoteFile.path
         { checkedState with skip := true, reason := skipReason.2 },
       some (Sum.inl { path := localState.file.path, success := true, error := none,
                       skipped := true, reason := skipReason.2 }))
    else
      (stSet states remoteFile.path checkedState,
       some (Sum.inr { localFile := localState.file,
                       remotePath := goBackslashToSlash
                         (goJoin remoteDir localState.file.relPath) }))

/-- The checker's control state after receiving one remote file. -/
def afterRecv
    (out : List (String × LocalFileState) × Option (FileUploadStatus ⊕ FileUploadTask)) :
    CheckerCtl :=
  match out.2 with
  | none => CheckerCtl.running out.1
  | some (Sum.inl rec) => CheckerCtl.sendingResult out.1 rec
  | some (Sum.inr task) => CheckerCtl.sendingTask out.1 task

/-- The skip records a `checkEmit` message contributes. -/
def emitRecs : Option (FileUploadStatus ⊕ FileUploadTask) → List FileUploadStatus
  | some (Sum.inl rec) => [rec]
  | _ => []

/-- The upload tasks a `checkEmit` message contributes. -/
def emitTasks : Option (FileUploadStatus ⊕ FileUploadTask) → List FileUploadTask
  | some (Sum.inr task) => [task]
  | _ => []

/-- Capacity of the `remoteFiles` channel. -/
def remoteCap : Nat := 100

/-- Capacity of the `uploadTasks` channel. -/
def taskCap : Nat := 10

/-- Capacity of the `results` channel. -/
def resultCap : Nat := 100

/-- Number of uploader goroutines. -/
def numWorkers : Nat := 8

/-- A global state of the pipeline: the streamer's unsent remote entries,
the three channels (buffer plus closed flag), the checker's control state,
the workers (idle = blocked receiving on `uploadTasks`; `working` holds
the tasks taken whose outcome record is not yet on `results`; `doneWorkers`
counts returned workers, i.e. `uploaderWG.Done()` calls), and the
collector's accumulated records and done flag. -/
structure PipeState where
  toStream : List RemoteFileInfo
  remoteCh : List RemoteFileInfo
  remoteClosed : Bool
  checker : CheckerCtl
  taskCh : List FileUploadTask
  tasksClosed : Bool
  idle : Nat
  working : List FileUploadTask
  doneWorkers : Nat
  resultsCh : List FileUploadStatus
  resultsClosed : Bool
  collected : List FileUploadStatus
  collectorDone : Bool
  deriving DecidableEq, Repr

/-- The pipeline's initial state, as `uploadDirectoryOptimized` spawns it:
all channels empty and open, the checker entering its receive loop on the
freshly built local-state map, eight idle workers, nothing collected. -/
def pipeInit (localStates : List (String × LocalFileState))
    (stream : List RemoteFileInfo) : PipeState :=
  { toStream := stream, remoteCh := [], remoteClosed := false,
    checker := CheckerCtl.running localStates,
    taskCh := [], tasksClosed := false,
    idle := numWorkers, working := [], doneWorkers := 0,
    resultsCh := [], resultsClosed := false,
    collected := [], collectorDone := false }

/-- One observable action of any process of the pipeline.  Sends require
buffer space, receives a non-empty buffer; a `for range` loop ends only on
a closed and drained channel; `close(results)` fires only once
`uploaderWG.Wait()` returns, i.e. all `numWorkers` workers are done. -/
inductive Step (env : NetEnv) (zone : StorageZone) (remoteDir : String) :
    PipeState → PipeState → Prop where
  | streamSend (s : PipeState) (r : RemoteFileInfo) (rest : List RemoteFileInfo)
      (hq : s.toStream = r :: rest) (hopen : s.remoteClosed = false)
      (hcap : s.remoteCh.length < remoteCap) :
      Step env zone remoteDir s
        { s with toStream := rest, remoteCh := s.remoteCh ++ [r] }
  | streamClose (s : PipeState)
      (hq : s.toStream = []) (hopen : s.remoteClosed = false) :
      Step env zone remoteDir s { s with remoteClosed := true }
  | checkRecv (s : PipeState) (states : List (String × LocalFileState))
      (r : RemoteFileInfo) (rest : List RemoteFileInfo)
      (hc : s.checker = CheckerCtl.running states) (hch : s.remoteCh = r :: rest) :
      Step env zone remoteDir s
        { s with remoteCh := rest,
                 checker := afterRecv (checkEmit remoteDir states r) }
  | checkEmitResult (s : PipeState) (states : List (String × LocalFileState))
      (rec : FileUploadStatus)
      (hc : s.checker = CheckerCtl.sendingResult states rec)
      (hcap : s.resultsCh.length < resultCap) :
      Step env zone remoteDir s
        { s with checker := CheckerCtl.running states,
                 resultsCh := s.resultsCh ++ [rec] }
  | checkEmitTask (s : PipeState) (states : List (String × LocalFileState))
      (task : FileUploadTask)
      (hc : s.checker = CheckerCtl.sendingTask states task)
      (hcap : s.taskCh.length < taskCap) :
      Step env zone remoteDir s
        { s with checker := CheckerCtl.running states,
                 taskCh := s.taskCh ++ [task] }
  | checkFinish (s : PipeState) (states : List (String × LocalFileState))
      (hc : s.checker = CheckerCtl.running states)
      (hch : s.remoteCh = []) (hclosed : s.remoteClosed = true) :
      Step env zone remoteDir s
        { s with checker := CheckerCtl.sweeping (residualSweep remoteDir states) }
  | sweepSend (s : PipeState) (task : FileUploadTask) (ts : List FileUploadTask)
      (hc : s.checker = CheckerCtl.sweeping (task :: ts))
      (hcap : s.taskCh.length < taskCap) :
      Step env zone remoteDir s
        { s with checker := CheckerCtl.sweeping ts, taskCh := s.taskCh ++ [task] }
  | sweepClose (s : PipeState) (hc : s.checker = CheckerCtl.sweeping []) :
      Step env zone remoteDir s
        { s with checker := CheckerCtl.finished, tasksClosed := true }
  | workerTake (s : PipeState) (task : FileUploadTask) (ts : List FileUploadTask)
      (hch : s.taskCh = task :: ts) (hidle : 0 < s.idle) :
      Step env zone remoteDir s
        { s with taskCh := ts, idle := s.idle - 1, working := s.working ++ [task] }
  | workerEmit (s : PipeState) (l1 l2 : List FileUploadTask) (task : FileUploadTask)
      (hw : s.working = l1 ++ task :: l2) (hcap : s.resultsCh.length < resultCap) :
      Step env zone remoteDir s
        { s with working := l1 ++ l2, idle := s.idle + 1,
                 resultsCh := s.resultsCh ++ [uploadOutcome env zone task] }
  | workerExit (s : PipeState)
      (hch : s.taskCh = []) (hclosed : s.tasksClosed = true) (hidle : 0 < s.idle) :
      Step env zone remoteDir s
        { s with idle := s.idle - 1, doneWorkers := s.doneWorkers + 1 }
  | closeResults (s : PipeState)
      (hdone : s.doneWorkers = numWorkers) (hopen : s.resultsClosed = false) :
      Step env zone remoteDir s { s with resultsClosed := true }
  | collectRecv (s : PipeState) (x : FileUploadStatus) (xs : List FileUploadStatus)
      (hch : s.resultsCh = x :: xs) :
      Step env zone remoteDir s
        { s with resultsCh := xs, collected := s.collected ++ [x] }
  | collectFinish (s : PipeState)
      (hch : s.resultsCh = []) (hclosed : s.resultsClosed = true)
      (hrun : s.collectorDone = false) :
      Step env zone remoteDir s { s with collectorDone := true }

/-- Reachability in the pipeline. -/
def pipeReach (env : NetEnv) (zone : StorageZone) (remoteDir : String)
    (s t : PipeState) : Prop :=
  Relation.ReflTransGen (Step env zone remoteDir) s t

/-- The pipeline's safety invariant.  `closedCkr`/`ckrClosed`: `uploadTasks`
is closed exactly when the checker has returned (so nobody sends on a
closed channel); `exitedClosed`: a worker exits only on the closed and
drained task channel; `conservation`: the eight workers are each idle,
working or done; `resultsAfter`: `results` is closed only after all workers
are done; `collectorLast`: the collector finishes only on the closed and
drained results channel. -/
structure PipeInv (s : PipeState) : Prop where
  streamDone : s.remoteClosed = true → s.toStream = []
  closedCkr : s.tasksClosed = true → s.checker = CheckerCtl.finished
  ckrClosed : s.checker = CheckerCtl.finished → s.tasksClosed = true
  exitedClosed : 0 < s.doneWorkers → s.tasksClosed = true ∧ s.taskCh = []
  conservation : s.idle + s.working.length + s.doneWorkers = numWorkers
  resultsAfter : s.resultsClosed = true → s.doneWorkers = numWorkers
  collectorLast : s.collectorDone = true → s.resultsClosed = true ∧ s.resultsCh = []

/-- Work remaining in the checker's control state, weighted for the
termination measure. -/
def ctlSize : CheckerCtl → Nat
  | CheckerCtl.running states => 6 * states.length + 3
  | CheckerCtl.sendingResult states _ => 6 * states.length + 6
  | CheckerCtl.sendingTask states _ => 6 * states.length + 9
  | CheckerCtl.sweeping ts => 6 * ts.length + 2
  | CheckerCtl.finished => 0

/-- Termination measure of the pipeline: every step strictly decreases it. -/
def pipeMeasure (s : PipeState) : Nat :=
  8 * s.toStream.length + 7 * s.remoteCh.length + ctlSize s.checker +
    5 * s.taskCh.length + 4 * s.working.length + 2 * s.resultsCh.length +
    s.idle + (if s.remoteClosed then 0 else 1) + (if s.tasksClosed then 0 else 1) +
    (if s.resultsClosed then 0 else 1) + (if s.collectorDone then 0 else 1)

/-- The records the checker will still produce (directly and through its
tasks), given its control state and the remote entries still to arrive. -/
def ctlFuture (env : NetEnv) (zone : StorageZone) (remoteDir : String) :
    CheckerCtl → List RemoteFileInfo → Multiset FileUploadStatus
  | CheckerCtl.running states, rs =>
    (↑(skipChecker states rs remoteDir).1 : Multiset FileUploadStatus) +
      ↑((skipChecker states rs remoteDir).2.map (uploadOutcome env zone))
  | CheckerCtl.sendingResult states rec, rs =>
    {rec} + ((↑(skipChecker states rs remoteDir).1 : Multiset FileUploadStatus) +
      ↑((skipChecker states rs remoteDir).2.map (uploadOutcome env zone)))
  | CheckerCtl.sendingTask states task, rs =>
    {uploadOutcome env zone task} +
      ((↑(skipChecker states rs remoteDir).1 : Multiset FileUploadStatus) +
        ↑((skipChecker states rs remoteDir).2.map (uploadOutcome env zone)))
  | CheckerCtl.sweeping ts, _ => ↑(ts.map (uploadOutcome env zone))
  | CheckerCtl.finished, _ => 0

/-- The bag of records the pipeline still owes the collector, plus those
already collected: collected records, buffered results, outcomes of taken
and of buffered tasks, and the checker's future output.  Every step
preserves it. -/
def pipeOutstanding (env : NetEnv) (zone : StorageZone) (remoteDir : String)
    (s : PipeState) : Multiset FileUploadStatus :=
  ↑s.collected + ↑s.resultsCh + ↑(s.working.map (uploadOutcome env zone)) +
    ↑(s.taskCh.map (uploadOutcome env zone)) +
    ctlFuture env zone remoteDir s.checker (s.remoteCh ++ s.toStream)

/-- `checkEmit` only updates entries of the state map in place. -/
theorem checkEmit_states_length (remoteDir : String)
    (st : List (String × LocalFileState)) (r : RemoteFileInfo) :
    (checkEmit remoteDir st r).1.length = st.length := by
  unfold checkEmit
  cases h : st.lookup r.path with
  | none => rfl
  | some localState =>
    by_cases hskip : (shouldSkipUpload localState.file r).1 <;>
      simp [hskip, stSet]

/-- The residual sweep yields at most one task per local file. -/
theorem residualSweep_length_le (remoteDir : String)
    (st : List (String × LocalFileState)) :
    (residualSweep remoteDir st).length ≤ st.length :=
  List.length_filterMap_le _ _

/-- One checker iteration in terms of `checkEmit`: the new state map and
the appended record or task. -/
theorem skipCheckerStep_decomp (remoteDir : String)
    (st : List (String × LocalFileState)) (R : List FileUploadStatus)
    (T : List FileUploadTask) (r : RemoteFileInfo) :
    skipCheckerStep remoteDir ⟨st, R, T⟩ r =
      ⟨(checkEmit remoteDir st r).1,
       R ++ emitRecs (checkEmit remoteDir st r).2,
       T ++ emitTasks (checkEmit remoteDir st r).2⟩ := by
  unfold skipCheckerStep checkEmit
  cases h : st.lookup r.path with
  | none => simp [emitRecs, emitTasks]
  | some localState =>
    by_cases hskip : (shouldSkipUpload localState.file r).1 <;>
      simp [hskip, emitRecs, emitTasks]

/-- Frame lemma: the checker loop appends its output after whatever the
accumulator already holds. -/
theorem skipCheckerLoop_frame (remoteDir : String) (rs : List RemoteFileInfo) :
    ∀ (st : List (String × LocalFileState)) (R : List FileUploadStatus)
      (T : List FileUploadTask),
      skipCheckerLoop remoteDir ⟨st, R, T⟩ rs =
        ⟨(skipCheckerLoop remoteDir ⟨st, [], []⟩ rs).states,
         R ++ (skipCheckerLoop remoteDir ⟨st, [], []⟩ rs).results,
         T ++ (skipCheckerLoop remoteDir ⟨st, [], []⟩ rs).tasks⟩ := by
  induction rs with
  | nil => intro st R T; simp [skipCheckerLoop]
  | cons r rs ih =>
    intro st R T
    simp only [skipCheckerLoop]
    rw [skipCheckerStep_decomp remoteDir st R T r,
      skipCheckerStep_decomp remoteDir st [] [] r]
    simp only [List.nil_append]
    rw [ih ((checkEmit remoteDir st r).1) (R ++ emitRecs (checkEmit remoteDir st r).2)
        (T ++ emitTasks (checkEmit remoteDir st r).2),
      ih ((checkEmit remoteDir st r).1) (emitRecs (checkEmit remoteDir st r).2)
        (emitTasks (checkEmit remoteDir st r).2)]
    simp [List.append_assoc]

/-- `skipChecker` on an empty stream: no records, only the residual sweep. -/
theorem skipChecker_nil (remoteDir : String)
    (st : List (String × LocalFileState)) :
    skipChecker st [] remoteDir = ([], residualSweep remoteDir st) := rfl

/-- `skipChecker` one remote entry at a time, in terms of `checkEmit`. -/
theorem skipChecker_cons (remoteDir : String)
    (st : List (String × LocalFileState)) (r : RemoteFileInfo)
    (rs : List RemoteFileInfo) :
    skipChecker st (r :: rs) remoteDir =
      (emitRecs (checkEmit remoteDir st r).2 ++
         (skipChecker (checkEmit remoteDir st r).1 rs remoteDir).1,
       emitTasks (checkEmit remoteDir st r).2 ++
         (skipChecker (checkEmit remoteDir st r).1 rs remoteDir).2) := by
  unfold skipChecker
  simp only [skipCheckerLoop]
  rw [skipCheckerStep_decomp remoteDir st [] [] r]
  simp only [List.nil_append]
  rw [skipCheckerLoop_frame remoteDir rs ((checkEmit remoteDir st r).1)
    (emitRecs (checkEmit remoteDir st r).2) (emitTasks (checkEmit remoteDir st r).2)]
  simp [List.append_assoc]

/-- `afterRecv` never yields the returned control state. -/
theorem afterRecv_ne_finished
    (out : List (String × LocalFileState) × Option (FileUploadStatus ⊕ FileUploadTask)) :
    afterRecv out ≠ CheckerCtl.finished := by
  unfold afterRecv
  rcases out with ⟨st2, msg⟩
  rcases msg with _ | msg
  · simp
  · rcases msg with rec | task <;> simp

/-- The safety invariant holds initially. -/
theorem pipeInv_init (localStates : List (String × LocalFileState))
    (stream : List RemoteFileInfo) : PipeInv (pipeInit localStates stream) := by
  refine ⟨?_, ?_, ?_, ?_, ?_, ?_, ?_⟩ <;> simp [pipeInit]

/-- Every pipeline step strictly decreases the measure: the pipeline has
no infinite run, hence no hang. -/
theorem pipeMeasure_decreasing (env : NetEnv) (zone : StorageZone)
    (remoteDir : String) (s t : PipeState) (h : Step env zone remoteDir s t) :
    pipeMeasure t < pipeMeasure s := by
  cases h with
  | streamSend r rest hq hopen hcap =>
    simp [pipeMeasure, hq, hopen, List.length_append] <;> omega
  | streamClose hq hopen =>
    simp [pipeMeasure, hopen] <;> omega
  | checkRecv states r rest hc hch =>
    rcases hce : checkEmit remoteDir states r with ⟨st2, msg⟩
    have hlen : st2.length = states.length := by
      have hl := checkEmit_states_length remoteDir states r
      rw [hce] at hl
      exact hl
    rcases msg with _ | msg
    · simp [pipeMeasure, hc, hch, hce, afterRecv, ctlSize, hlen] <;> omega
    · rcases msg with rec | task <;>
        simp [pipeMeasure, hc, hch, hce, afterRecv, ctlSize, hlen] <;> omega
  | checkEmitResult states rec hc hcap =>
    simp [pipeMeasure, hc, ctlSize, List.length_append] <;> omega
  | checkEmitTask states task hc hcap =>
    simp [pipeMeasure, hc, ctlSize, List.length_append] <;> omega
  | checkFinish states hc hch hclosed =>
    have hle := residualSweep_length_le remoteDir states
    simp [pipeMeasure, hc, hch, ctlSize]
    omega
  | sweepSend task ts hc hcap =>
    simp [pipeMeasure, hc, ctlSize, List.length_append] <;> omega
  | sweepClose hc =>
    simp [pipeMeasure, hc, ctlSize]
    split <;> omega
  | workerTake task ts hch hidle =>
    simp [pipeMeasure, hch, List.length_append]
    omega
  | workerEmit l1 l2 task hw hcap =>
    simp [pipeMeasure, hw, List.length_append] <;> omega
  | workerExit hch hclosed hidle =>
    simp [pipeMeasure]
    omega
  | closeResults hdone hopen =>
    simp [pipeMeasure, hopen] <;> omega
  | collectRecv x xs hch =>
    simp [pipeMeasure, hch, List.length_append] <;> omega
  | collectFinish hch hclosed hrun =>
    simp [pipeMeasure, hrun] <;> omega

/-- Every pipeline step preserves the safety invariant. -/
theorem pipeInv_step (env : NetEnv) (zone : StorageZone) (remoteDir : String)
    (s t : PipeState) (h : Step env zone remoteDir s t) (inv : PipeInv s) :
    PipeInv t := by
  obtain ⟨h1, h2, h3, h4, h5, h6, h7⟩ := inv
  cases h with
  | streamSend r rest hq hopen hcap =>
    exact ⟨fun hc => absurd hc (by simp [hopen]), h2, h3, h4, h5, h6, h7⟩
  | streamClose hq hopen =>
    exact ⟨fun _ => hq, h2, h3, h4, h5, h6, h7⟩
  | checkRecv states r rest hc hch =>
    refine ⟨h1, ?_, ?_, h4, h5, h6, h7⟩
    · intro ht
      exact absurd (hc.symm.trans (h2 ht)) (by simp)
    · intro hfin
      exact absurd hfin (afterRecv_ne_finished _)
  | checkEmitResult states rec hc hcap =>
    refine ⟨h1, ?_, ?_, h4, h5, h6, ?_⟩
    · intro ht
      exact absurd (hc.symm.trans (h2 ht)) (by simp)
    · intro hfin
      exact absurd hfin (by simp)
    · intro hcd
      exfalso
      have hrc := (h7 hcd).1
      have hdw := h6 hrc
      have htc := (h4 (by rw [hdw]; decide)).1
      exact absurd (hc.symm.trans (h2 htc)) (by simp)
  | checkEmitTask states task hc hcap =>
    refine ⟨h1, ?_, ?_, ?_, h5, h6, h7⟩
    · intro ht
      exact absurd (hc.symm.trans (h2 ht)) (by simp)
    · intro hfin
      exact absurd hfin (by simp)
    · intro hdw
      exfalso
      exact absurd (hc.symm.trans (h2 (h4 hdw).1)) (by simp)
  | checkFinish states hc hch hclosed =>
    refine ⟨h1, ?_, ?_, h4, h5, h6, h7⟩
    · intro ht
      exact absurd (hc.symm.trans (h2 ht)) (by simp)
    · intro hfin
      exact absurd hfin (by simp)
  | sweepSend task ts hc hcap =>
    refine ⟨h1, ?_, ?_, ?_, h5, h6, h7⟩
    · intro ht
      exact absurd (hc.symm.trans (h2 ht)) (by simp)
    · intro hfin
      exact absurd hfin (by simp)
    · intro hdw
      exfalso
      exact absurd (hc.symm.trans (h2 (h4 hdw).1)) (by simp)
  | sweepClose hc =>
    refine ⟨h1, fun _ => rfl, fun _ => rfl, ?_, h5, h6, h7⟩
    intro hdw
    exfalso
    exact absurd (hc.symm.trans (h2 (h4 hdw).1)) (by simp)
  | workerTake task ts hch hidle =>
    refine ⟨h1, h2, h3, ?_, ?_, h6, h7⟩
    · intro hdw
      exfalso
      rw [(h4 hdw).2] at hch
      simp at hch
    · simp only [List.length_append, List.length_cons, List.length_nil]
      omega
  | workerEmit l1 l2 task hw hcap =>
    refine ⟨h1, h2, h3, h4, ?_, h6, ?_⟩
    · rw [hw] at h5
      simp only [List.length_append, List.length_cons] at h5 ⊢
      omega
    · intro hcd
      exfalso
      have hrc := (h7 hcd).1
      have hdw := h6 hrc
      rw [hw] at h5
      have hnw : numWorkers = 8 := rfl
      simp only [List.length_append, List.length_cons] at h5
      omega
  | workerExit hch hclosed hidle =>
    refine ⟨h1, h2, h3, fun _ => ⟨hclosed, hch⟩, ?_, ?_, h7⟩
    · simp only []
      omega
    · intro hrc
      exfalso
      have hdw := h6 hrc
      omega
  | closeResults hdone hopen =>
    exact ⟨h1, h2, h3, h4, h5, fun _ => hdone, fun hcd => ⟨rfl, (h7 hcd).2⟩⟩
  | collectRecv x xs hch =>
    refine ⟨h1, h2, h3, h4, h5, h6, ?_⟩
    intro hcd
    exfalso
    rw [(h7 hcd).2] at hch
    simp at hch
  | collectFinish hch hclosed hrun =>
    exact ⟨h1, h2, h3, h4, h5, h6, fun _ => ⟨hclosed, hch⟩⟩

/-- Coercion of a list append into a multiset sum. -/
theorem coe_list_append {α : Type} (a b : List α) :
    (↑(a ++ b) : Multiset α) = ↑a + ↑b :=
  (Multiset.coe_add a b).symm

/-- Coercion of a list cons into a singleton plus the tail. -/
theorem coe_list_cons {α : Type} (x : α) (l : List α) :
    (↑(x :: l) : Multiset α) = {x} + ↑l := by
  rw [Multiset.singleton_add]
  exact Multiset.cons_coe x l

/-- Every pipeline step preserves the outstanding bag of records. -/
theorem pipeOutstanding_step (env : NetEnv) (zone : StorageZone)
    (remoteDir : String) (s t : PipeState) (h : Step env zone remoteDir s t)
    (inv : PipeInv s) :
    pipeOutstanding env zone remoteDir t = pipeOutstanding env zone remoteDir s := by
  obtain ⟨h1, h2, h3, h4, h5, h6, h7⟩ := inv
  cases h with
  | streamSend r rest hq hopen hcap =>
    simp [pipeOutstanding, hq, List.append_assoc]
  | streamClose hq hopen =>
    rfl
  | checkRecv states r rest hc hch =>
    rcases hce : checkEmit remoteDir states r with ⟨st2, msg⟩
    simp only [pipeOutstanding, hc, hch]
    rw [List.cons_append, ctlFuture,
      skipChecker_cons remoteDir states r (rest ++ s.toStream), hce]
    rcases msg with _ | msg
    · simp [ctlFuture, afterRecv, emitRecs, emitTasks]
    · rcases msg with rec | task <;>
        simp only [ctlFuture, afterRecv, emitRecs, emitTasks, List.map_append,
          List.map_cons, List.map_nil, List.nil_append, List.singleton_append,
          coe_list_append, coe_list_cons, Multiset.coe_singleton, Multiset.coe_nil, zero_add, add_zero] <;>
        abel
  | checkEmitResult states rec hc hcap =>
    simp only [pipeOutstanding, hc, ctlFuture, coe_list_append,
      Multiset.coe_singleton, Multiset.coe_nil, zero_add, add_zero]
    abel
  | checkEmitTask states task hc hcap =>
    simp only [pipeOutstanding, hc, ctlFuture, List.map_append, List.map_cons,
      List.map_nil, coe_list_append, coe_list_cons, Multiset.coe_singleton, Multiset.coe_nil, zero_add, add_zero]
    abel
  | checkFinish states hc hch hclosed =>
    simp [pipeOutstanding, hc, hch, h1 hclosed, ctlFuture, skipChecker_nil]
  | sweepSend task ts hc hcap =>
    simp only [pipeOutstanding, hc, ctlFuture, List.map_append, List.map_cons,
      List.map_nil, coe_list_append, coe_list_cons, Multiset.coe_singleton, Multiset.coe_nil, zero_add, add_zero]
    abel
  | sweepClose hc =>
    simp [pipeOutstanding, hc, ctlFuture]
  | workerTake task ts hch hidle =>
    simp only [pipeOutstanding, hch, List.map_append, List.map_cons,
      List.map_nil, coe_list_append, coe_list_cons, Multiset.coe_singleton, Multiset.coe_nil, zero_add, add_zero]
    abel
  | workerEmit l1 l2 task hw hcap =>
    simp only [pipeOutstanding, hw, List.map_append, List.map_cons,
      List.map_nil, coe_list_append, coe_list_cons, Multiset.coe_singleton, Multiset.coe_nil, zero_add, add_zero]
    abel
  | workerExit hch hclosed hidle =>
    rfl
  | closeResults hdone hopen =>
    rfl
  | collectRecv x xs hch =>
    simp only [pipeOutstanding, hch, coe_list_append, coe_list_cons,
      Multiset.coe_singleton, Multiset.coe_nil, zero_add, add_zero]
    abel
  | collectFinish hch hclosed hrun =>
    rfl

/-- The safety invariant holds in every reachable state. -/
theorem pipeInv_reach (env : NetEnv) (zone : StorageZone) (remoteDir : String)
    (s0 s : PipeState) (h0 : PipeInv s0)
    (h : pipeReach env zone remoteDir s0 s) : PipeInv s := by
  unfold pipeReach at h
  induction h with
  | refl => exact h0
  | tail hr hstep ih => exact pipeInv_step env zone remoteDir _ _ hstep ih

/-- The outstanding bag is constant along every run. -/
theorem pipeOutstanding_reach (env : NetEnv) (zone : StorageZone)
    (remoteDir : String) (s0 s : PipeState) (h0 : PipeInv s0)
    (h : pipeReach env zone remoteDir s0 s) :
    pipeOutstanding env zone remoteDir s = pipeOutstanding env zone remoteDir s0 := by
  unfold pipeReach at h
  induction h with
  | refl => rfl
  | tail hr hstep ih =>
    rw [pipeOutstanding_step env zone remoteDir _ _ hstep
      (pipeInv_reach env zone remoteDir _ _ h0 hr)]
    exact ih

/-- A state of the pipeline with no enabled action is terminal: the
collector is done, every buffer is drained, every worker has exited and
both downstream channels are closed.  In particular the pipeline never
deadlocks mid-run. -/
theorem pipeStuck_final (env : NetEnv) (zone : StorageZone) (remoteDir : String)
    (s : PipeState) (inv : PipeInv s)
    (hstuck : ∀ u, ¬ Step env zone remoteDir s u) :
    s.collectorDone = true ∧ s.resultsCh = [] ∧ s.working = [] ∧ s.taskCh = [] ∧
      s.checker = CheckerCtl.finished ∧ s.resultsClosed = true ∧
      s.doneWorkers = numWorkers ∧ s.idle = 0 := by
  have hnum : numWorkers = 8 := rfl
  have hrc : s.resultsCh = [] := by
    cases hres : s.resultsCh with
    | nil => rfl
    | cons x xs => exact absurd (Step.collectRecv s x xs hres) (hstuck _)
  have hwork : s.working = [] := by
    cases hw : s.working with
    | nil => rfl
    | cons w ws =>
      exact absurd (Step.workerEmit s [] ws w hw (by rw [hrc]; decide)) (hstuck _)
  have htch : s.taskCh = [] := by
    cases htc : s.taskCh with
    | nil => rfl
    | cons task ts =>
      rcases Nat.eq_zero_or_pos s.idle with hidle | hidle
      · exfalso
        have h5 := inv.conservation
        rw [hwork] at h5
        simp only [List.length_nil] at h5
        have hdw : 0 < s.doneWorkers := by omega
        rw [(inv.exitedClosed hdw).2] at htc
        exact List.noConfusion htc
      · exact absurd (Step.workerTake s task ts htc hidle) (hstuck _)
  have hckr : s.checker = CheckerCtl.finished := by
    cases hc : s.checker with
    | running states =>
      exfalso
      cases hrch : s.remoteCh with
      | cons r rest => exact hstuck _ (Step.checkRecv s states r rest hc hrch)
      | nil =>
        cases hro : s.remoteClosed with
        | true => exact hstuck _ (Step.checkFinish s states hc hrch hro)
        | false =>
          cases hts : s.toStream with
          | nil => exact hstuck _ (Step.streamClose s hts hro)
          | cons r rest =>
            exact hstuck _ (Step.streamSend s r rest hts hro (by rw [hrch]; decide))
    | sendingResult states rec =>
      exact absurd (Step.checkEmitResult s states rec hc (by rw [hrc]; decide))
        (hstuck _)
    | sendingTask states task =>
      exact absurd (Step.checkEmitTask s states task hc (by rw [htch]; decide))
        (hstuck _)
    | sweeping ts =>
      cases ts with
      | nil => exact absurd (Step.sweepClose s hc) (hstuck _)
      | cons task ts =>
        exact absurd (Step.sweepSend s task ts hc (by rw [htch]; decide)) (hstuck _)
    | finished => rfl
  have htcl : s.tasksClosed = true := inv.ckrClosed hckr
  have hidle0 : s.idle = 0 := by
    rcases Nat.eq_zero_or_pos s.idle with h | h
    · exact h
    · exact absurd (Step.workerExit s htch htcl h) (hstuck _)
  have hdw : s.doneWorkers = numWorkers := by
    have h5 := inv.conservation
    rw [hwork, hidle0] at h5
    simp only [List.length_nil] at h5
    omega
  have hrcl : s.resultsClosed = true := by
    cases hr : s.resultsClosed with
    | true => rfl
    | false => exact absurd (Step.closeResults s hdw hr) (hstuck _)
  have hcd : s.collectorDone = true := by
    cases hcdq : s.collectorDone with
    | true => rfl
    | false => exact absurd (Step.collectFinish s hrc hrcl hcdq) (hstuck _)
  exact ⟨hcd, hrc, hwork, htch, hckr, hrcl, hdw, hidle0⟩

/-- **C5.** The outcome channel is closed only after all upload workers
have finished, and the single collector consumes every outcome record
produced by the skip checker and by the upload workers before the run
terminates, neither hanging nor truncating.  In the operational model of
the pipeline: (1) in every reachable state where `results` is closed, all
`numWorkers` workers are done (none idle, none still holding a task) and
the checker returned and closed `uploadTasks` beforehand, so no record is
produced after the close; (2) every reachable state where no process can
act is a completed run: the collector has finished, having collected
exactly the bag of records of the sequential model — the skip records plus
one upload record per task, residual sweep included; (3) every action
strictly decreases the measure `pipeMeasure`, so every run reaches such
a state: the pipeline cannot hang. -/
theorem results_channel_handshake (env : NetEnv) (zone : StorageZone)
    (remoteDir : String) (localStates : List (String × LocalFileState))
    (stream : List RemoteFileInfo) :
    (∀ s, pipeReach env zone remoteDir (pipeInit localStates stream) s →
      s.resultsClosed = true →
      s.doneWorkers = numWorkers ∧ s.working = [] ∧ s.idle = 0 ∧
        s.tasksClosed = true ∧ s.checker = CheckerCtl.finished) ∧
    (∀ s, pipeReach env zone remoteDir (pipeInit localStates stream) s →
      (∀ u, ¬ Step env zone remoteDir s u) →
      s.collectorDone = true ∧
        (↑s.collected : Multiset FileUploadStatus) =
          ↑(skipChecker localStates stream remoteDir).1 +
            ↑(uploader env zone (skipChecker localStates stream remoteDir).2)) ∧
    (∀ s u, Step env zone remoteDir s u → pipeMeasure u < pipeMeasure s) := by
  refine ⟨?_, ?_, ?_⟩
  · intro s hreach hrcl
    have inv := pipeInv_reach env zone remoteDir _ s
      (pipeInv_init localStates stream) hreach
    have hnum : numWorkers = 8 := rfl
    have hdw := inv.resultsAfter hrcl
    have h5 := inv.conservation
    have hwl : s.working.length = 0 := by omega
    have hwork : s.working = [] := List.length_eq_zero.mp hwl
    have hidle : s.idle = 0 := by omega
    have htcl : s.tasksClosed = true := (inv.exitedClosed (by omega)).1
    exact ⟨hdw, hwork, hidle, htcl, inv.closedCkr htcl⟩
  · intro s hreach hstuck
    have inv := pipeInv_reach env zone remoteDir _ s
      (pipeInv_init localStates stream) hreach
    obtain ⟨hcd, hrc, hwork, htch, hckr, -, -, -⟩ :=
      pipeStuck_final env zone remoteDir s inv hstuck
    refine ⟨hcd, ?_⟩
    have hE := pipeOutstanding_reach env zone remoteDir _ s
      (pipeInv_init localStates stream) hreach
    rw [uploader_eq_map]
    calc (↑s.collected : Multiset FileUploadStatus)
        = pipeOutstanding env zone remoteDir s := by
          simp [pipeOutstanding, hrc, hwork, htch, hckr, ctlFuture]
      _ = pipeOutstanding env zone remoteDir (pipeInit localStates stream) := hE
      _ = ↑(skipChecker localStates stream remoteDir).1 +
            ↑((skipChecker localStates stream remoteDir).2.map
              (uploadOutcome env zone)) := by
          simp [pipeOutstanding, pipeInit, ctlFuture]
  · intro s u hstepu
    exact pipeMeasure_decreasing env zone remoteDir s u hstepu

/-- A successful network environment for the pipeline witness. -/
def envW : NetEnv :=
  ⟨fun _ => Except.ok "data", fun _ => FetchResult.response 201 "201 Created" ""⟩

/-- A storage zone for the pipeline witness. -/
def zoneW : StorageZone := ⟨"zone", "pw"⟩

/-- One local file for the pipeline witness. -/
def lfW : LocalFileInfo := ⟨"site/a.txt", 3, "AA", "a.txt"⟩

/-- The checker's initial state map for the pipeline witness. -/
def localStatesW : List (String × LocalFileState) :=
  [("a.txt", ⟨lfW, false, false, ""⟩)]

/-- The one upload task of the pipeline witness run (from the residual
sweep: the file is new, no remote entry arrived). -/
def taskW : FileUploadTask := ⟨lfW, "a.txt"⟩

/-- The terminal pipeline state of the witness run: everything closed and
drained, all eight workers done, the one upload record collected. -/
def pipeFinalW : PipeState :=
  { toStream := [], remoteCh := [], remoteClosed := true,
    checker := CheckerCtl.finished, taskCh := [], tasksClosed := true,
    idle := 0, working := [], doneWorkers := 8,
    resultsCh := [], resultsClosed := true,
    collected := [uploadOutcome envW zoneW taskW], collectorDone := true }

/-- Witness for C5: a complete interleaved run of the pipeline on one new
local file and an empty remote stream reaches `pipeFinalW`, where no
process can act; the theorem then yields that the collector terminated
with exactly the sequential model's records. -/
theorem results_channel_handshake_witness :
    pipeFinalW.collectorDone = true ∧
    (↑pipeFinalW.collected : Multiset FileUploadStatus) =
      ↑(skipChecker localStatesW [] "").1 +
        ↑(uploader envW zoneW (skipChecker localStatesW [] "").2) := by
  have hreach : pipeReach envW zoneW "" (pipeInit localStatesW []) pipeFinalW := by
    unfold pipeReach
    refine Relation.ReflTransGen.head (Step.streamClose _ rfl rfl) ?_
    refine Relation.ReflTransGen.head
      (Step.checkFinish _ localStatesW rfl rfl rfl) ?_
    refine Relation.ReflTransGen.head (Step.sweepSend _ taskW [] rfl (by decide)) ?_
    refine Relation.ReflTransGen.head
      (Step.workerTake _ taskW [] rfl (by decide)) ?_
    refine Relation.ReflTransGen.head (Step.sweepClose _ rfl) ?_
    refine Relation.ReflTransGen.head
      (Step.workerEmit _ [] [] taskW rfl (by decide)) ?_
    refine Relation.ReflTransGen.head (Step.workerExit _ rfl rfl (by decide)) ?_
    refine Relation.ReflTransGen.head (Step.workerExit _ rfl rfl (by decide)) ?_
    refine Relation.ReflTransGen.head (Step.workerExit _ rfl rfl (by decide)) ?_
    refine Relation.ReflTransGen.head (Step.workerExit _ rfl rfl (by decide)) ?_
    refine Relation.ReflTransGen.head (Step.workerExit _ rfl rfl (by decide)) ?_
    refine Relation.ReflTransGen.head (Step.workerExit _ rfl rfl (by decide)) ?_
    refine Relation.ReflTransGen.head (Step.workerExit _ rfl rfl (by decide)) ?_
    refine Relation.ReflTransGen.head (Step.workerExit _ rfl rfl (by decide)) ?_
    refine Relation.ReflTransGen.head (Step.closeResults _ rfl rfl) ?_
    refine Relation.ReflTransGen.head
      (Step.collectRecv _ (uploadOutcome envW zoneW taskW) [] rfl) ?_
    refine Relation.ReflTransGen.head (Step.collectFinish _ rfl rfl rfl) ?_
    exact Relation.ReflTransGen.refl
  have hstuck : ∀ u, ¬ Step envW zoneW "" pipeFinalW u := by
    intro u h
    cases h <;> simp_all [pipeFinalW]
  exact (results_channel_handshake envW zoneW "" localStatesW []).2.1
    pipeFinalW hreach hstuck
